import Mathlib

/-!
ncnn `Pipeline` (src/pipeline.cpp): workgroup sizing, specialization packing, construction
and teardown.

Shallow embedding of `ncnn::Pipeline` and `ncnn::ImportAndroidHardwareBufferPipeline`.

* `uint32_t` values are natural numbers; no operation of the sizer can exceed 32 bits on
  32-bit inputs (only `/`, `min`, `max` and conversions of in-range values occur).
* `int` extents are integers.
* `float` values are the rational numbers they denote. Every arithmetic operation is the
  exact operation followed by IEEE 754 round-to-nearest-even to 24 significand bits
  (`roundTo 24`), each operation evaluated in its own format; `double` uses 53 bits.
  `sqrt` is the correctly rounded root (`sqrtRound`); for a `float` argument stored back
  into a `float` it is the 24-bit root whether the overload taken is the `float` or the
  `double` one. The exponent range is not modelled: the intermediate values of the sizer
  lie between `2^-32` and `2^64`, inside the normal range of both formats.
* The `uint32_t` fields `VkSpecializationMapEntry::offset` and `VkPushConstantRange::size`
  receive a `size_t` product, so they are reduced modulo `2^32`. A list of specialization
  words stands for a vector whose element count fits the `int` it is copied into.
* Vulkan handles are natural numbers, `0` being `VK_NULL_HANDLE`.
* The driver is an explicit record of the status codes and handles it answers with, and
  every driver call made is appended to a log.
* A function that can divide by zero returns an `Option`, `none` standing for the
  division by zero.
-/

namespace ncnn

/-! ## Binary floating point on rationals -/

/-- Floor of the binary logarithm of a natural number, by repeated halving
(`fuel` bounds the number of halvings). -/
def log2Loop : Nat → Nat → Nat
  | 0, _ => 0
  | fuel + 1, n => if 2 ≤ n then log2Loop fuel (n / 2) + 1 else 0

/-- Floor of the binary logarithm of a natural number (`0` for `0`). -/
def natLog2 (n : Nat) : Nat := log2Loop n n

/-- Floor of the binary logarithm of a positive rational: the `e` with `2^e ≤ x < 2^(e+1)`. -/
def ilog2 (x : ℚ) : ℤ :=
  if x < 2 ^ ((natLog2 x.num.toNat : ℤ) - (natLog2 x.den : ℤ)) then
    (natLog2 x.num.toNat : ℤ) - (natLog2 x.den : ℤ) - 1
  else (natLog2 x.num.toNat : ℤ) - (natLog2 x.den : ℤ)

/-- Integer square root by binary digits: with `r * r ≤ n`, tries the bits
`2^(i-1), ..., 2^0` from the top and keeps each one whose square still fits. -/
def isqrtBits (n : Nat) : Nat → Nat → Nat
  | 0, r => r
  | i + 1, r =>
    if (r + 2 ^ i) * (r + 2 ^ i) ≤ n then isqrtBits n i (r + 2 ^ i) else isqrtBits n i r

/-- Floor of the square root of a natural number. -/
def isqrt (n : Nat) : Nat := isqrtBits n (natLog2 n + 1) 0

/-- Round to the nearest integer, ties to the even neighbour (the IEEE 754 default mode). -/
def roundHalfEven (x : ℚ) : ℤ :=
  if x - ⌊x⌋ < 1 / 2 then ⌊x⌋
  else if 1 / 2 < x - ⌊x⌋ then ⌊x⌋ + 1
  else if ⌊x⌋ % 2 = 0 then ⌊x⌋ else ⌊x⌋ + 1

/-- Value of `x` after rounding to a binary floating-point format with `p` significand
bits: round to nearest, ties to even. -/
def roundTo (p : Nat) (x : ℚ) : ℚ :=
  if x = 0 then 0
  else if x < 0 then
    -((roundHalfEven (-x / 2 ^ (ilog2 (-x) - ((p : ℤ) - 1))) : ℚ) * 2 ^ (ilog2 (-x) - ((p : ℤ) - 1)))
  else (roundHalfEven (x / 2 ^ (ilog2 x - ((p : ℤ) - 1))) : ℚ) * 2 ^ (ilog2 x - ((p : ℤ) - 1))

/-- Significand of the correctly rounded square root: the integer nearest to `sqrt y`. -/
def sqrtNearest (y : ℚ) : Nat :=
  if y < ((isqrt ⌊y⌋.toNat : ℚ) + 1 / 2) ^ 2 then isqrt ⌊y⌋.toNat
  else if ((isqrt ⌊y⌋.toNat : ℚ) + 1 / 2) ^ 2 < y then isqrt ⌊y⌋.toNat + 1
  else if isqrt ⌊y⌋.toNat % 2 = 0 then isqrt ⌊y⌋.toNat else isqrt ⌊y⌋.toNat + 1

/-- Correctly rounded square root in a format with `p` significand bits (`sqrt` of
`<math.h>` on IEEE 754 hardware); `0` for arguments that are not positive. -/
def sqrtRound (p : Nat) (x : ℚ) : ℚ :=
  if x ≤ 0 then 0
  else (sqrtNearest (x / 4 ^ (ilog2 x / 2 - ((p : ℤ) - 1))) : ℚ) * 2 ^ (ilog2 x / 2 - ((p : ℤ) - 1))

/-- Conversion `(float)n` of an `int`. -/
def int_to_float (n : Int) : ℚ := roundTo 24 (n : ℚ)

/-- Conversion of a `uint32_t` operand to `float`. -/
def uint_to_float (n : Nat) : ℚ := roundTo 24 (n : ℚ)

/-- Division of two `float` values. -/
def float_div (a b : ℚ) : ℚ := roundTo 24 (a / b)

/-- Product of two `float` values. -/
def float_mul (a b : ℚ) : ℚ := roundTo 24 (a * b)

/-- Square root of a `float`, stored into a `float`. -/
def float_sqrt (a : ℚ) : ℚ := sqrtRound 24 a

/-- Square root `sqrt(n)` of a `uint32_t`, computed in `double` (the integer is promoted
exactly). -/
def double_sqrt_uint (n : Nat) : ℚ := sqrtRound 53 (n : ℚ)

/-- Conversion of a non-negative floating-point value to `uint32_t`: truncation. -/
def float_to_uint (x : ℚ) : Nat := ⌊x⌋.toNat

/-! ## Device information and the pipeline object -/

/-- Fields of `vkdev->info` read by pipeline.cpp. `max_workgroup_size_x/y/z` are
`max_workgroup_size[0..2]`. -/
structure GpuInfo where
  max_workgroup_size_x : Nat
  max_workgroup_size_y : Nat
  max_workgroup_size_z : Nat
  max_workgroup_invocations : Nat
  support_VK_KHR_descriptor_update_template : Bool
  support_VK_KHR_push_descriptor : Bool
  deriving DecidableEq

/-- Data members of `class Pipeline`. -/
structure Pipeline where
  local_shader_module : Nat
  descriptorset_layout : Nat
  pipeline_layout : Nat
  pipeline : Nat
  descriptor_update_template : Nat
  local_size_x : Nat
  local_size_y : Nat
  local_size_z : Nat
  deriving DecidableEq

/-- The constructor `Pipeline::Pipeline`. -/
def Pipeline.new : Pipeline :=
  { local_shader_module := 0
    descriptorset_layout := 0
    pipeline_layout := 0
    pipeline := 0
    descriptor_update_template := 0
    local_size_x := 1
    local_size_y := 1
    local_size_z := 1 }

/-! ## `Pipeline::set_optimal_local_size_xyz` -/

/-- The loop `while (bound < v) v /= 2;` run for at most `fuel` iterations. -/
def halveLoop (bound : Nat) : Nat → Nat → Nat
  | 0, v => v
  | fuel + 1, v => if bound < v then halveLoop bound fuel (v / 2) else v

/-- The loop `while (bound < v) v /= 2;`. It stops after at most `v` halvings
(`halveLoop_exit`, `halveLoop_fuel`). -/
def halve_while_above (bound v : Nat) : Nat := halveLoop bound v v

/-- Lines 134-145: the channel axis. -/
def optimal_local_size_z (info : GpuInfo) (c : Int) : Nat :=
  if c > 0 then halve_while_above c.toNat info.max_workgroup_size_z
  else min 128 info.max_workgroup_size_z

/-- Lines 149-159: the branch `h == w || (h < 0 && w < 0)`. -/
def local_size_xy_symmetric (max_local_size_xy : Nat) : Nat :=
  halve_while_above (float_to_uint (double_sqrt_uint max_local_size_xy)) 128

/-- Lines 162-175: the pair (`local_size_x`, `local_size_y`) before the snap to the
preferred sizes, for `h > 0 && w > 0`. -/
def local_size_xy_aspect (max_local_size_xy : Nat) (w h : Int) : Nat × Nat :=
  if h > w then
    let ps := float_div (int_to_float h) (int_to_float w)
    let local_size_xy := float_sqrt (float_div (uint_to_float max_local_size_xy) ps)
    (max (float_to_uint local_size_xy) 1, float_to_uint (float_mul local_size_xy ps))
  else
    let ps := float_div (int_to_float w) (int_to_float h)
    let local_size_xy := float_sqrt (float_div (uint_to_float max_local_size_xy) ps)
    (float_to_uint (float_mul local_size_xy ps), max (float_to_uint local_size_xy) 1)

/-- `Pipeline::set_optimal_local_size_xyz(w, h, c)`. The result is `none` when the code
divides by zero. -/
def Pipeline.set_optimal_local_size_xyz (info : GpuInfo) (p : Pipeline) (w h c : Int) :
    Option Pipeline :=
  let local_size_z := optimal_local_size_z info c
  if local_size_z = 0 then none
  else
    let max_local_size_xy := info.max_workgroup_invocations / local_size_z
    let p1 : Pipeline :=
      if h = w ∨ (h < 0 ∧ w < 0) then
        { p with
          local_size_x := local_size_xy_symmetric max_local_size_xy
          local_size_y := local_size_xy_symmetric max_local_size_xy
          local_size_z := local_size_z }
      else { p with local_size_z := local_size_z }
    if h > 0 ∧ w > 0 then
      some
        { p1 with
          local_size_y :=
            halve_while_above (local_size_xy_aspect max_local_size_xy w h).2
              (min 128 info.max_workgroup_size_y)
          local_size_x :=
            halve_while_above (local_size_xy_aspect max_local_size_xy w h).1
              (min 128 info.max_workgroup_size_x) }
    else if h > 0 then
      let local_size_y :=
        halve_while_above h.toNat (min max_local_size_xy info.max_workgroup_size_y)
      if local_size_y = 0 then none
      else
        some
          { p1 with
            local_size_y := local_size_y
            local_size_x := min (max_local_size_xy / local_size_y) info.max_workgroup_size_x }
    else if w > 0 then
      let local_size_x :=
        halve_while_above w.toNat (min max_local_size_xy info.max_workgroup_size_x)
      if local_size_x = 0 then none
      else
        some
          { p1 with
            local_size_x := local_size_x
            local_size_y := min (max_local_size_xy / local_size_x) info.max_workgroup_size_y }
    else some p1

/-- `Pipeline::set_local_size_xyz(w, h, c)`: the `int` arguments are stored into the
`uint32_t` members. -/
def Pipeline.set_local_size_xyz (p : Pipeline) (w h c : Int) : Pipeline :=
  { p with
    local_size_x := (w % 2 ^ 32).toNat
    local_size_y := (h % 2 ^ 32).toNat
    local_size_z := (c % 2 ^ 32).toNat }

/-- The triple (`local_size_x`, `local_size_y`, `local_size_z`). -/
def Pipeline.local_size (p : Pipeline) : Nat × Nat × Nat :=
  (p.local_size_x, p.local_size_y, p.local_size_z)


/-! ## Vulkan create-info records and the driver -/

/-- `VK_SUCCESS`. -/
def VK_SUCCESS : Int := 0

/-- `VK_DESCRIPTOR_TYPE_STORAGE_BUFFER`. -/
def VK_DESCRIPTOR_TYPE_STORAGE_BUFFER : Nat := 7

/-- `VK_SHADER_STAGE_COMPUTE_BIT`. -/
def VK_SHADER_STAGE_COMPUTE_BIT : Nat := 32

/-- `VK_DESCRIPTOR_SET_LAYOUT_CREATE_PUSH_DESCRIPTOR_BIT_KHR`. -/
def VK_DESCRIPTOR_SET_LAYOUT_CREATE_PUSH_DESCRIPTOR_BIT_KHR : Nat := 1

/-- `VK_DESCRIPTOR_UPDATE_TEMPLATE_TYPE_DESCRIPTOR_SET_KHR`. -/
def VK_DESCRIPTOR_UPDATE_TEMPLATE_TYPE_DESCRIPTOR_SET_KHR : Nat := 0

/-- `VK_DESCRIPTOR_UPDATE_TEMPLATE_TYPE_PUSH_DESCRIPTORS_KHR`. -/
def VK_DESCRIPTOR_UPDATE_TEMPLATE_TYPE_PUSH_DESCRIPTORS_KHR : Nat := 1

/-- `sizeof(vk_specialization_type)`: a union of `int`, `float` and `uint32_t`. -/
def sizeof_vk_specialization_type : Nat := 4

/-- `sizeof(VkDescriptorBufferInfo)`: a handle and two `VkDeviceSize`. -/
def sizeof_VkDescriptorBufferInfo : Nat := 24

/-- `VkDescriptorSetLayoutBinding` (`pImmutableSamplers` is `0` for a null pointer). -/
structure VkDescriptorSetLayoutBinding where
  binding : Nat
  descriptorType : Nat
  descriptorCount : Nat
  stageFlags : Nat
  pImmutableSamplers : Nat
  deriving DecidableEq

/-- `VkDescriptorSetLayoutCreateInfo`. -/
structure VkDescriptorSetLayoutCreateInfo where
  flags : Nat
  bindingCount : Nat
  pBindings : List VkDescriptorSetLayoutBinding
  deriving DecidableEq

/-- `VkPushConstantRange`. -/
structure VkPushConstantRange where
  stageFlags : Nat
  offset : Nat
  size : Nat
  deriving DecidableEq

/-- `VkPipelineLayoutCreateInfo`; a null array pointer is the empty list. -/
structure VkPipelineLayoutCreateInfo where
  flags : Nat
  setLayoutCount : Nat
  pSetLayouts : List Nat
  pushConstantRangeCount : Nat
  pPushConstantRanges : List VkPushConstantRange
  deriving DecidableEq

/-- `VkSpecializationMapEntry`. -/
structure VkSpecializationMapEntry where
  constantID : Nat
  offset : Nat
  size : Nat
  deriving DecidableEq

/-- `VkSpecializationInfo`; `pData` lists the 32-bit words of the data buffer. -/
structure VkSpecializationInfo where
  mapEntryCount : Nat
  pMapEntries : List VkSpecializationMapEntry
  dataSize : Nat
  pData : List Nat
  deriving DecidableEq

/-- `VkComputePipelineCreateInfo` with its single shader stage inlined. -/
structure VkComputePipelineCreateInfo where
  stage : Nat
  module : Nat
  pName : String
  pSpecializationInfo : VkSpecializationInfo
  layout : Nat
  deriving DecidableEq

/-- `VkDescriptorUpdateTemplateEntryKHR`. -/
structure VkDescriptorUpdateTemplateEntryKHR where
  dstBinding : Nat
  dstArrayElement : Nat
  descriptorCount : Nat
  descriptorType : Nat
  offset : Nat
  stride : Nat
  deriving DecidableEq

/-- `VkDescriptorUpdateTemplateCreateInfoKHR`. -/
structure VkDescriptorUpdateTemplateCreateInfoKHR where
  descriptorUpdateEntryCount : Nat
  pDescriptorUpdateEntries : List VkDescriptorUpdateTemplateEntryKHR
  templateType : Nat
  descriptorSetLayout : Nat
  pipelineLayout : Nat
  deriving DecidableEq

/-- One call into the Vulkan driver, with the request or the handle it is given. -/
inductive DriverCall where
  | vkCreateDescriptorSetLayout (request : VkDescriptorSetLayoutCreateInfo)
  | vkCreatePipelineLayout (request : VkPipelineLayoutCreateInfo)
  | vkCreateComputePipelines (request : VkComputePipelineCreateInfo)
  | vkCreateDescriptorUpdateTemplateKHR (request : VkDescriptorUpdateTemplateCreateInfoKHR)
  | vkDestroyDescriptorUpdateTemplateKHR (handle : Nat)
  | vkDestroyPipeline (handle : Nat)
  | vkDestroyPipelineLayout (handle : Nat)
  | vkDestroyDescriptorSetLayout (handle : Nat)
  | vkDestroyShaderModule (handle : Nat)
  | vkDestroySampler (handle : Nat)
  | vkDestroySamplerYcbcrConversionKHR (handle : Nat)
  deriving DecidableEq

/-- What the driver answers to a creation call: its `VkResult` and the handle it stores
through the output pointer. -/
structure DriverAnswer where
  result : Int
  handle : Nat
  deriving DecidableEq

/-- The answers of the device to the calls `Pipeline::create` can make.
`compile_shader_module` is the module returned by `vkdev->compile_shader_module`. -/
structure Driver where
  compile_shader_module : Nat
  vkCreateDescriptorSetLayout : DriverAnswer
  vkCreatePipelineLayout : DriverAnswer
  vkCreateComputePipelines : DriverAnswer
  vkCreateDescriptorUpdateTemplateKHR : DriverAnswer
  deriving DecidableEq

/-- Outcome of a member function: its `int` return value, the object afterwards and the
driver calls it made, in order. -/
structure Outcome where
  ret : Int
  self : Pipeline
  calls : List DriverCall
  deriving DecidableEq

/-! ## Layouts, the pipeline and the update template -/

/-- The binding array filled by the loop of `Pipeline::create_descriptorset_layout`. -/
def descriptorSetLayoutBindings (binding_count : Nat) : List VkDescriptorSetLayoutBinding :=
  (List.range binding_count).map fun i =>
    { binding := i
      descriptorType := VK_DESCRIPTOR_TYPE_STORAGE_BUFFER
      descriptorCount := 1
      stageFlags := VK_SHADER_STAGE_COMPUTE_BIT
      pImmutableSamplers := 0 }

/-- `Pipeline::create_descriptorset_layout(binding_count)`. -/
def Pipeline.create_descriptorset_layout (info : GpuInfo) (drv : Driver) (p : Pipeline)
    (binding_count : Nat) : Outcome :=
  if binding_count = 0 then
    { ret := 0, self := { p with descriptorset_layout := 0 }, calls := [] }
  else
    let request : VkDescriptorSetLayoutCreateInfo :=
      { flags :=
          if info.support_VK_KHR_push_descriptor then
            VK_DESCRIPTOR_SET_LAYOUT_CREATE_PUSH_DESCRIPTOR_BIT_KHR
          else 0
        bindingCount := binding_count
        pBindings := descriptorSetLayoutBindings binding_count }
    { ret := if drv.vkCreateDescriptorSetLayout.result ≠ VK_SUCCESS then -1 else 0
      self := { p with descriptorset_layout := drv.vkCreateDescriptorSetLayout.handle }
      calls := [DriverCall.vkCreateDescriptorSetLayout request] }

/-- The request assembled by `Pipeline::create_pipeline_layout(push_constant_count)`. The
range size `sizeof(int) * push_constant_count` is narrowed into the `uint32_t` field
`size`. -/
def Pipeline.pipelineLayoutCreateInfo (p : Pipeline) (push_constant_count : Int) :
    VkPipelineLayoutCreateInfo :=
  { flags := 0
    setLayoutCount := if p.descriptorset_layout ≠ 0 then 1 else 0
    pSetLayouts := if p.descriptorset_layout ≠ 0 then [p.descriptorset_layout] else []
    pushConstantRangeCount := if push_constant_count > 0 then 1 else 0
    pPushConstantRanges :=
      if push_constant_count > 0 then
        [{ stageFlags := VK_SHADER_STAGE_COMPUTE_BIT
           offset := 0
           size := ((4 * push_constant_count) % 2 ^ 32).toNat }]
      else [] }

/-- `Pipeline::create_pipeline_layout(push_constant_count)`. -/
def Pipeline.create_pipeline_layout (drv : Driver) (p : Pipeline) (push_constant_count : Int) :
    Outcome :=
  { ret := if drv.vkCreatePipelineLayout.result ≠ VK_SUCCESS then -1 else 0
    self := { p with pipeline_layout := drv.vkCreatePipelineLayout.handle }
    calls := [DriverCall.vkCreatePipelineLayout (p.pipelineLayoutCreateInfo push_constant_count)] }

/-- The array `specializationMapEntries` of `Pipeline::create_pipeline`: resized to
`specialization_count + 3` value-initialized entries, the first `specialization_count`
written by the loop, the last three by the `local_size_xyz` block. Each offset is a
`size_t` product narrowed into the `uint32_t` field `offset`. -/
def specializationMapEntries (specialization_count : Nat) : List VkSpecializationMapEntry :=
  let resized : List VkSpecializationMapEntry :=
    List.replicate (specialization_count + 3) { constantID := 0, offset := 0, size := 0 }
  let looped :=
    (List.range specialization_count).foldl
      (fun entries i =>
        entries.set i
          { constantID := i
            offset := i * sizeof_vk_specialization_type % 2 ^ 32
            size := sizeof_vk_specialization_type })
      resized
  ((looped.set (specialization_count + 0)
        { constantID := 233
          offset := (specialization_count + 0) * sizeof_vk_specialization_type % 2 ^ 32
          size := sizeof_vk_specialization_type }).set
      (specialization_count + 1)
        { constantID := 234
          offset := (specialization_count + 1) * sizeof_vk_specialization_type % 2 ^ 32
          size := sizeof_vk_specialization_type }).set
    (specialization_count + 2)
      { constantID := 235
        offset := (specialization_count + 2) * sizeof_vk_specialization_type % 2 ^ 32
        size := sizeof_vk_specialization_type }

/-- The vector `specialization_data` of `Pipeline::create_pipeline`: a copy of the caller
values, resized by three zero words that then receive the local size. -/
def Pipeline.specialization_data (p : Pipeline) (specializations : List Nat) : List Nat :=
  (((specializations ++ List.replicate 3 0).set (specializations.length + 0) p.local_size_x).set
      (specializations.length + 1) p.local_size_y).set
    (specializations.length + 2) p.local_size_z

/-- The `VkSpecializationInfo` assembled by `Pipeline::create_pipeline`. -/
def Pipeline.specializationInfo (p : Pipeline) (specializations : List Nat) :
    VkSpecializationInfo :=
  { mapEntryCount := (specializationMapEntries specializations.length).length
    pMapEntries := specializationMapEntries specializations.length
    dataSize := (p.specialization_data specializations).length * sizeof_vk_specialization_type
    pData := p.specialization_data specializations }

/-- `Pipeline::create_pipeline(shader_module, entry_name, specializations)`. -/
def Pipeline.create_pipeline (drv : Driver) (p : Pipeline) (shader_module : Nat)
    (entry_name : String) (specializations : List Nat) : Outcome :=
  let request : VkComputePipelineCreateInfo :=
    { stage := VK_SHADER_STAGE_COMPUTE_BIT
      module := shader_module
      pName := entry_name
      pSpecializationInfo := p.specializationInfo specializations
      layout := p.pipeline_layout }
  { ret := if drv.vkCreateComputePipelines.result ≠ VK_SUCCESS then -1 else 0
    self := { p with pipeline := drv.vkCreateComputePipelines.handle }
    calls := [DriverCall.vkCreateComputePipelines request] }

/-- The entry array filled by the loop of `Pipeline::create_descriptor_update_template`. -/
def descriptorUpdateTemplateEntries (binding_count : Nat) :
    List VkDescriptorUpdateTemplateEntryKHR :=
  (List.range binding_count).map fun i =>
    { dstBinding := i
      dstArrayElement := 0
      descriptorCount := 1
      descriptorType := VK_DESCRIPTOR_TYPE_STORAGE_BUFFER
      offset := i * sizeof_VkDescriptorBufferInfo
      stride := sizeof_VkDescriptorBufferInfo }

/-- `Pipeline::create_descriptor_update_template(binding_count)`. -/
def Pipeline.create_descriptor_update_template (info : GpuInfo) (drv : Driver) (p : Pipeline)
    (binding_count : Nat) : Outcome :=
  if binding_count = 0 then
    { ret := 0, self := { p with descriptor_update_template := 0 }, calls := [] }
  else
    let request : VkDescriptorUpdateTemplateCreateInfoKHR :=
      { descriptorUpdateEntryCount := binding_count
        pDescriptorUpdateEntries := descriptorUpdateTemplateEntries binding_count
        templateType :=
          if info.support_VK_KHR_push_descriptor then
            VK_DESCRIPTOR_UPDATE_TEMPLATE_TYPE_PUSH_DESCRIPTORS_KHR
          else VK_DESCRIPTOR_UPDATE_TEMPLATE_TYPE_DESCRIPTOR_SET_KHR
        descriptorSetLayout := p.descriptorset_layout
        pipelineLayout := p.pipeline_layout }
    { ret := if drv.vkCreateDescriptorUpdateTemplateKHR.result ≠ VK_SUCCESS then -1 else 0
      self :=
        { p with descriptor_update_template := drv.vkCreateDescriptorUpdateTemplateKHR.handle }
      calls := [DriverCall.vkCreateDescriptorUpdateTemplateKHR request] }

/-! ## `Pipeline::create` and `Pipeline::destroy` -/

/-- `Pipeline::create(shader_module, entry_name, specializations, binding_count,
push_constant_count)` (line 58). The four helpers are called as statements: their return
values are dropped, and the function ends in `return 0`. -/
def Pipeline.create (info : GpuInfo) (drv : Driver) (p : Pipeline) (shader_module : Nat)
    (entry_name : String) (specializations : List Nat) (binding_count : Nat)
    (push_constant_count : Int) : Outcome :=
  let s1 := p.create_descriptorset_layout info drv binding_count
  let s2 := s1.self.create_pipeline_layout drv push_constant_count
  let s3 := s2.self.create_pipeline drv shader_module entry_name specializations
  if info.support_VK_KHR_descriptor_update_template then
    let s4 := s3.self.create_descriptor_update_template info drv binding_count
    { ret := 0, self := s4.self, calls := s1.calls ++ s2.calls ++ s3.calls ++ s4.calls }
  else { ret := 0, self := s3.self, calls := s1.calls ++ s2.calls ++ s3.calls }

/-- `Pipeline::create(spv_data, spv_data_size, entry_name, ...)` (line 49): compiles the
module, keeps it in `local_shader_module` and goes on with it. -/
def Pipeline.create_spv (info : GpuInfo) (drv : Driver) (p : Pipeline) (entry_name : String)
    (specializations : List Nat) (binding_count : Nat) (push_constant_count : Int) : Outcome :=
  Pipeline.create info drv { p with local_shader_module := drv.compile_shader_module }
    drv.compile_shader_module entry_name specializations binding_count push_constant_count

/-- `Pipeline::destroy()`: the object afterwards and the release calls made, in order. -/
def Pipeline.destroy (info : GpuInfo) (p : Pipeline) : Pipeline × List DriverCall :=
  let c1 :=
    if info.support_VK_KHR_descriptor_update_template ∧ p.descriptor_update_template ≠ 0 then
      [DriverCall.vkDestroyDescriptorUpdateTemplateKHR p.descriptor_update_template]
    else []
  let p1 :=
    if info.support_VK_KHR_descriptor_update_template ∧ p.descriptor_update_template ≠ 0 then
      { p with descriptor_update_template := 0 }
    else p
  let c2 := if p1.pipeline ≠ 0 then [DriverCall.vkDestroyPipeline p1.pipeline] else []
  let p2 := if p1.pipeline ≠ 0 then { p1 with pipeline := 0 } else p1
  let c3 :=
    if p2.pipeline_layout ≠ 0 then [DriverCall.vkDestroyPipelineLayout p2.pipeline_layout] else []
  let p3 := if p2.pipeline_layout ≠ 0 then { p2 with pipeline_layout := 0 } else p2
  let c4 :=
    if p3.descriptorset_layout ≠ 0 then
      [DriverCall.vkDestroyDescriptorSetLayout p3.descriptorset_layout]
    else []
  let p4 := if p3.descriptorset_layout ≠ 0 then { p3 with descriptorset_layout := 0 } else p3
  let c5 :=
    if p4.local_shader_module ≠ 0 then [DriverCall.vkDestroyShaderModule p4.local_shader_module]
    else []
  let p5 := if p4.local_shader_module ≠ 0 then { p4 with local_shader_module := 0 } else p4
  (p5, c1 ++ c2 ++ c3 ++ c4 ++ c5)

/-- The shader modules released by a list of driver calls. -/
def releasedShaderModules (calls : List DriverCall) : List Nat :=
  calls.filterMap fun call =>
    match call with
    | DriverCall.vkDestroyShaderModule handle => some handle
    | _ => none

/-- The handle members of `class ImportAndroidHardwareBufferPipeline` on top of its base
`Pipeline`. -/
structure ImportAndroidHardwareBufferPipeline extends Pipeline where
  samplerYcbcrConversion : Nat
  sampler : Nat
  deriving DecidableEq

/-- The constructor `ImportAndroidHardwareBufferPipeline::ImportAndroidHardwareBufferPipeline`. -/
def ImportAndroidHardwareBufferPipeline.new : ImportAndroidHardwareBufferPipeline :=
  { Pipeline.new with samplerYcbcrConversion := 0, sampler := 0 }

/-- `ImportAndroidHardwareBufferPipeline::destroy()`. -/
def ImportAndroidHardwareBufferPipeline.destroy (info : GpuInfo)
    (p : ImportAndroidHardwareBufferPipeline) :
    ImportAndroidHardwareBufferPipeline × List DriverCall :=
  let c1 := if p.sampler ≠ 0 then [DriverCall.vkDestroySampler p.sampler] else []
  let p1 := if p.sampler ≠ 0 then { p with sampler := 0 } else p
  let c2 :=
    if p1.samplerYcbcrConversion ≠ 0 then
      [DriverCall.vkDestroySamplerYcbcrConversionKHR p1.samplerYcbcrConversion]
    else []
  let p2 := if p1.samplerYcbcrConversion ≠ 0 then { p1 with samplerYcbcrConversion := 0 } else p1
  ({ p2 with toPipeline := (p2.toPipeline.destroy info).1 },
    c1 ++ c2 ++ (p2.toPipeline.destroy info).2)

/-! ## `ImportAndroidHardwareBufferPipeline::create` -/

/-- The fp16 feature flags of `vkdev->info`. -/
structure GpuInfoFp16 where
  support_fp16_packed : Bool
  support_fp16_storage : Bool
  support_fp16_arithmetic : Bool
  deriving DecidableEq

/-- The fields of `ncnn::Option` read by pipeline.cpp (the name `Option` is left to the
option type). -/
structure NcnnOption where
  use_fp16_packed : Bool
  use_fp16_storage : Bool
  use_fp16_arithmetic : Bool
  deriving DecidableEq

/-- The members of `class ImportAndroidHardwareBufferPipeline` that describe the
conversion: source size, target type, rotation and the output layout derived from them. -/
structure ConversionMembers where
  w : Int
  h : Int
  type_to : Int
  rotate_from : Int
  outw : Int
  outh : Int
  outc : Int
  out_elemsize : Nat
  out_elempack : Int
  deriving DecidableEq

/-- Conversion of a `uint32_t` (a field of `AHardwareBuffer_Desc`) to `int`. -/
def uint32_to_int (n : Nat) : Int :=
  if n % 2 ^ 32 < 2 ^ 31 then ((n % 2 ^ 32 : Nat) : Int) else ((n % 2 ^ 32 : Nat) : Int) - 2 ^ 32

/-- Return value of `ImportAndroidHardwareBufferPipeline::create` and the conversion
members after the call. -/
structure ImportOutcome where
  ret : Int
  members : ConversionMembers
  deriving DecidableEq

/-- `ImportAndroidHardwareBufferPipeline::create(hb, _type_to, _rotate_from, opt)`, lines
444-536, as far as its return value and the conversion members go. `width` and `height`
are what `AHardwareBuffer_describe` reports, `properties_result` is the `VkResult` of
`vkGetAndroidHardwareBufferPropertiesANDROID`. The members are assigned in lines 449-482,
before that query; the statements after it (local size `(8, 8, 1)`, sampler, layouts,
pipeline, update template) assign none of them, their results are not tested, and the
function ends in `return 0`. -/
def ImportAndroidHardwareBufferPipeline.create (fp16 : GpuInfoFp16) (opt : NcnnOption)
    (width height : Nat) (_type_to _rotate_from : Int) (properties_result : Int) :
    ImportOutcome :=
  let w := uint32_to_int width
  let h := uint32_to_int height
  { ret := if properties_result ≠ VK_SUCCESS then -1 else 0
    members :=
      { w := w
        h := h
        type_to := _type_to
        rotate_from := _rotate_from
        outw := if _rotate_from < 5 then w else h
        outh := if _rotate_from < 5 then h else w
        outc := if _type_to = 1 ∨ _type_to = 2 then 3 else if _type_to = 3 then 1 else 4
        out_elemsize :=
          if _type_to = 1 ∨ _type_to = 2 then
            if fp16.support_fp16_storage && opt.use_fp16_storage then 2 else 4
          else if _type_to = 3 then
            if fp16.support_fp16_storage && opt.use_fp16_storage then 2 else 4
          else if
            (fp16.support_fp16_packed && opt.use_fp16_packed) ||
              (fp16.support_fp16_storage && opt.use_fp16_storage) then 8
          else 16
        out_elempack := if _type_to = 1 ∨ _type_to = 2 then 1 else if _type_to = 3 then 1 else 4 } }

/-! ## Statements about the floating-point model -/

/-- A rational that a binary format with `p` significand bits holds exactly: a
significand of at most `p` bits (or `2^p`, the start of the next binade) times a power of
two. -/
def IsFloat (p : Nat) (x : ℚ) : Prop := ∃ (m : ℕ) (e : ℤ), m ≤ 2 ^ p ∧ x = (m : ℚ) * 2 ^ e

/-! ## The halving loop -/

theorem halveLoop_le (bound : Nat) : ∀ fuel v, halveLoop bound fuel v ≤ v := by
  intro fuel
  induction fuel with
  | zero => intro v; simp [halveLoop]
  | succ f ih =>
    intro v
    simp only [halveLoop]
    split
    · exact le_trans (ih (v / 2)) (Nat.div_le_self v 2)
    · exact le_rfl

/-- With at least `v` iterations allowed the loop leaves through its test: the result is
not above the bound. -/
theorem halveLoop_exit (bound : Nat) : ∀ fuel v, v ≤ fuel → halveLoop bound fuel v ≤ bound := by
  intro fuel
  induction fuel with
  | zero => intro v hv; simp [halveLoop]; omega
  | succ f ih =>
    intro v hv
    simp only [halveLoop]
    split
    · exact ih (v / 2) (by omega)
    · omega

/-- The result does not depend on the iteration bound once it is at least `v`. -/
theorem halveLoop_fuel (bound : Nat) :
    ∀ fuel v, v ≤ fuel → halveLoop bound fuel v = halveLoop bound v v := by
  intro fuel
  induction fuel using Nat.strong_induction_on with
  | _ f ih =>
    intro v hv
    cases f with
    | zero =>
      have : v = 0 := by omega
      subst this; rfl
    | succ f =>
      cases v with
      | zero => simp [halveLoop]
      | succ v =>
        simp only [halveLoop]
        split
        · rw [ih f (by omega) ((v + 1) / 2) (by omega), ih v (by omega) ((v + 1) / 2) (by omega)]
        · rfl

/-- The loop equation of `while (bound < v) v /= 2;`. -/
theorem halve_while_above_eq (bound v : Nat) :
    halve_while_above bound v = if bound < v then halve_while_above bound (v / 2) else v := by
  unfold halve_while_above
  cases v with
  | zero => simp [halveLoop]
  | succ v =>
    simp only [halveLoop]
    split
    · exact halveLoop_fuel bound v ((v + 1) / 2) (by omega)
    · rfl

theorem halve_while_above_le_bound (bound v : Nat) : halve_while_above bound v ≤ bound :=
  halveLoop_exit bound v v le_rfl

theorem halve_while_above_le (bound v : Nat) : halve_while_above bound v ≤ v :=
  halveLoop_le bound v v

theorem halveLoop_pos (bound : Nat) (hb : 1 ≤ bound) :
    ∀ fuel v, 1 ≤ v → 1 ≤ halveLoop bound fuel v := by
  intro fuel
  induction fuel with
  | zero => intro v hv; simpa [halveLoop] using hv
  | succ f ih =>
    intro v hv
    simp only [halveLoop]
    split
    · exact ih (v / 2) (by omega)
    · exact hv

theorem halve_while_above_pos (bound v : Nat) (hb : 1 ≤ bound) (hv : 1 ≤ v) :
    1 ≤ halve_while_above bound v :=
  halveLoop_pos bound hb v v hv

/-- The loop returns the first element of `v, v/2, v/4, ...` that is not above the bound. -/
theorem halveLoop_first (bound : Nat) :
    ∀ fuel v, ∃ k, halveLoop bound fuel v = v / 2 ^ k ∧ ∀ j, j < k → bound < v / 2 ^ j := by
  intro fuel
  induction fuel with
  | zero => intro v; exact ⟨0, by simp [halveLoop], by intro j hj; omega⟩
  | succ f ih =>
    intro v
    simp only [halveLoop]
    split
    · obtain ⟨k, hk, hlt⟩ := ih (v / 2)
      refine ⟨k + 1, ?_, ?_⟩
      · rw [hk, Nat.div_div_eq_div_mul, pow_succ, Nat.mul_comm]
      · intro j hj
        cases j with
        | zero => simpa using ‹bound < v›
        | succ j =>
          have := hlt j (by omega)
          rwa [Nat.div_div_eq_div_mul, Nat.mul_comm, ← pow_succ] at this
    · exact ⟨0, by simp, by intro j hj; omega⟩

theorem halve_while_above_step (b v : Nat) :
    halve_while_above b (2 * v) = if 2 * v ≤ b then 2 * v else halve_while_above b v := by
  rw [halve_while_above_eq b (2 * v)]
  have : 2 * v / 2 = v := by omega
  rw [this]
  split_ifs <;> first | rfl | omega

theorem halve_while_above_128 (b : Nat) :
    halve_while_above b 128 =
      if 128 ≤ b then 128 else if 64 ≤ b then 64 else if 32 ≤ b then 32 else if 16 ≤ b then 16
      else if 8 ≤ b then 8 else if 4 ≤ b then 4 else if 2 ≤ b then 2 else if 1 ≤ b then 1
      else 0 := by
  have h1 : halve_while_above b 1 = if 1 ≤ b then 1 else 0 := by
    rw [halve_while_above_eq b 1, halve_while_above_eq b (1 / 2)]
    split_ifs <;> omega
  have h2 := halve_while_above_step b 1
  have h4 := halve_while_above_step b 2
  have h8 := halve_while_above_step b 4
  have h16 := halve_while_above_step b 8
  have h32 := halve_while_above_step b 16
  have h64 := halve_while_above_step b 32
  have h128 := halve_while_above_step b 64
  simp only [Nat.reduceMul] at h2 h4 h8 h16 h32 h64 h128
  rw [h128, h64, h32, h16, h8, h4, h2, h1]

/-! ## Integer logarithm and square root -/

theorem log2Loop_spec :
    ∀ fuel n, n ≤ fuel → 1 ≤ n → 2 ^ log2Loop fuel n ≤ n ∧ n < 2 ^ (log2Loop fuel n + 1) := by
  intro fuel
  induction fuel with
  | zero => intro n h1 h2; omega
  | succ f ih =>
    intro n hn h1
    simp only [log2Loop]
    split
    · obtain ⟨h3, h4⟩ := ih (n / 2) (by omega) (by omega)
      constructor
      · rw [pow_succ]; omega
      · rw [pow_succ]; omega
    · simp; omega

theorem natLog2_spec (n : Nat) (h : 1 ≤ n) : 2 ^ natLog2 n ≤ n ∧ n < 2 ^ (natLog2 n + 1) :=
  log2Loop_spec n n le_rfl h

theorem isqrtBits_spec (n : Nat) :
    ∀ i r, r * r ≤ n → n < (r + 2 ^ i) * (r + 2 ^ i) →
      isqrtBits n i r * isqrtBits n i r ≤ n ∧ n < (isqrtBits n i r + 1) * (isqrtBits n i r + 1) := by
  intro i
  induction i with
  | zero => intro r h1 h2; simpa [isqrtBits] using ⟨h1, h2⟩
  | succ i ih =>
    intro r h1 h2
    simp only [isqrtBits]
    split
    · rename_i h3
      apply ih _ h3
      have : r + 2 ^ i + 2 ^ i = r + 2 ^ (i + 1) := by rw [pow_succ]; omega
      rw [this]; exact h2
    · rename_i h3
      exact ih _ h1 (by omega)

theorem isqrt_spec (n : Nat) : isqrt n * isqrt n ≤ n ∧ n < (isqrt n + 1) * (isqrt n + 1) := by
  unfold isqrt
  apply isqrtBits_spec
  · simp
  · rcases Nat.eq_zero_or_pos n with h | h
    · subst h; simp
    · have h2 := (natLog2_spec n h).2
      have h3 : 1 ≤ 2 ^ (natLog2 n + 1) := Nat.one_le_two_pow
      simp only [zero_add]
      calc n < 2 ^ (natLog2 n + 1) := h2
        _ = 2 ^ (natLog2 n + 1) * 1 := by ring
        _ ≤ 2 ^ (natLog2 n + 1) * 2 ^ (natLog2 n + 1) := Nat.mul_le_mul_left _ h3

/-! ## Binary logarithm of a rational -/

theorem ilog2_spec (x : ℚ) (hx : 0 < x) : (2 : ℚ) ^ ilog2 x ≤ x ∧ x < 2 ^ (ilog2 x + 1) := by
  have hnum : 0 < x.num := Rat.num_pos.mpr hx
  have hden : 1 ≤ x.den := x.den_pos
  obtain ⟨a1, a2⟩ := natLog2_spec x.num.toNat (by omega)
  obtain ⟨b1, b2⟩ := natLog2_spec x.den hden
  have hn : ((x.num.toNat : ℕ) : ℚ) = (x.num : ℚ) := by
    have : ((x.num.toNat : ℕ) : ℤ) = x.num := Int.toNat_of_nonneg hnum.le
    exact_mod_cast this
  have a1q : (2 : ℚ) ^ natLog2 x.num.toNat ≤ (x.num : ℚ) := by rw [← hn]; exact_mod_cast a1
  have a2q : (x.num : ℚ) < (2 : ℚ) ^ (natLog2 x.num.toNat + 1) := by rw [← hn]; exact_mod_cast a2
  have b1q : (2 : ℚ) ^ natLog2 x.den ≤ (x.den : ℚ) := by exact_mod_cast b1
  have b2q : (x.den : ℚ) < (2 : ℚ) ^ (natLog2 x.den + 1) := by exact_mod_cast b2
  have hdq : (0 : ℚ) < x.den := by exact_mod_cast hden
  have hxe : x = (x.num : ℚ) / (x.den : ℚ) := (Rat.num_div_den x).symm
  have e0 : (2 : ℚ) ^ ((natLog2 x.num.toNat : ℤ) - (natLog2 x.den : ℤ))
      = (2 : ℚ) ^ natLog2 x.num.toNat / (2 : ℚ) ^ natLog2 x.den := by
    rw [zpow_sub₀ (two_ne_zero), zpow_natCast, zpow_natCast]
  have em : (2 : ℚ) ^ ((natLog2 x.num.toNat : ℤ) - (natLog2 x.den : ℤ) - 1)
      = (2 : ℚ) ^ natLog2 x.num.toNat / (2 : ℚ) ^ (natLog2 x.den + 1) := by
    rw [show ((natLog2 x.num.toNat : ℤ) - (natLog2 x.den : ℤ) - 1)
        = (natLog2 x.num.toNat : ℤ) - ((natLog2 x.den + 1 : ℕ) : ℤ) by push_cast; ring]
    rw [zpow_sub₀ (two_ne_zero), zpow_natCast, zpow_natCast]
  have ep : (2 : ℚ) ^ ((natLog2 x.num.toNat : ℤ) - (natLog2 x.den : ℤ) + 1)
      = (2 : ℚ) ^ (natLog2 x.num.toNat + 1) / (2 : ℚ) ^ natLog2 x.den := by
    rw [show ((natLog2 x.num.toNat : ℤ) - (natLog2 x.den : ℤ) + 1)
        = ((natLog2 x.num.toNat + 1 : ℕ) : ℤ) - (natLog2 x.den : ℤ) by push_cast; ring]
    rw [zpow_sub₀ (two_ne_zero), zpow_natCast, zpow_natCast]
  have hp1 : (0 : ℚ) < (2 : ℚ) ^ natLog2 x.den := by positivity
  have hp2 : (0 : ℚ) < (2 : ℚ) ^ (natLog2 x.den + 1) := by positivity
  have hxd : x * (x.den : ℚ) = (x.num : ℚ) := Rat.mul_den_eq_num x
  unfold ilog2
  split
  · rename_i hlt
    refine ⟨?_, ?_⟩
    · rw [em, div_le_iff₀ hp2]
      have h2 : x * (x.den : ℚ) ≤ x * (2 : ℚ) ^ (natLog2 x.den + 1) :=
        mul_le_mul_of_nonneg_left b2q.le hx.le
      linarith
    · rw [sub_add_cancel]; exact hlt
  · rename_i hge
    refine ⟨not_lt.mp hge, ?_⟩
    rw [ep, lt_div_iff₀ hp1]
    have h1 : x * (2 : ℚ) ^ natLog2 x.den ≤ x * (x.den : ℚ) :=
      mul_le_mul_of_nonneg_left b1q hx.le
    linarith

theorem ilog2_unique (x : ℚ) (hx : 0 < x) (a : ℤ) (h1 : (2 : ℚ) ^ a ≤ x)
    (h2 : x < 2 ^ (a + 1)) : ilog2 x = a := by
  obtain ⟨s1, s2⟩ := ilog2_spec x hx
  have l1 : ilog2 x < a + 1 :=
    (zpow_lt_zpow_iff_right₀ (by norm_num : (1 : ℚ) < 2)).mp (lt_of_le_of_lt s1 h2)
  have l2 : a < ilog2 x + 1 :=
    (zpow_lt_zpow_iff_right₀ (by norm_num : (1 : ℚ) < 2)).mp (lt_of_le_of_lt h1 s2)
  omega

/-- A power of two below `x` is a power of two with exponent at most `ilog2 x`. -/
theorem le_ilog2 (x : ℚ) (hx : 0 < x) (j : ℤ) (h : (2 : ℚ) ^ j ≤ x) : j ≤ ilog2 x := by
  have l2 : j < ilog2 x + 1 :=
    (zpow_lt_zpow_iff_right₀ (by norm_num : (1 : ℚ) < 2)).mp
      (lt_of_le_of_lt h (ilog2_spec x hx).2)
  omega

/-! ## Rounding -/

theorem roundHalfEven_intCast (n : ℤ) : roundHalfEven (n : ℚ) = n := by
  unfold roundHalfEven
  simp

theorem floor_le_roundHalfEven (x : ℚ) : ⌊x⌋ ≤ roundHalfEven x := by
  unfold roundHalfEven
  split_ifs <;> omega

theorem roundHalfEven_le_floor_add_one (x : ℚ) : roundHalfEven x ≤ ⌊x⌋ + 1 := by
  unfold roundHalfEven
  split_ifs <;> omega

theorem le_roundHalfEven (x : ℚ) (n : ℤ) (h : (n : ℚ) ≤ x) : n ≤ roundHalfEven x :=
  le_trans (Int.le_floor.mpr h) (floor_le_roundHalfEven x)

theorem roundHalfEven_le (x : ℚ) (n : ℤ) (h : x < (n : ℚ)) : roundHalfEven x ≤ n := by
  have : ⌊x⌋ < n := Int.floor_lt.mpr h
  have := roundHalfEven_le_floor_add_one x
  omega

/-- Shape of a rounded positive number: an integer significand between `2^(p-1)` and
`2^p` times the power of two of the last place. -/
theorem roundTo_pos_form (p : Nat) (hp : 1 ≤ p) (x : ℚ) (hx : 0 < x) :
    ∃ m : ℕ, 2 ^ (p - 1) ≤ m ∧ m ≤ 2 ^ p ∧
      roundTo p x = (m : ℚ) * 2 ^ (ilog2 x - ((p : ℤ) - 1)) := by
  obtain ⟨s1, s2⟩ := ilog2_spec x hx
  have hE : (0 : ℚ) < 2 ^ (ilog2 x - ((p : ℤ) - 1)) := by positivity
  have hlo : ((2 ^ (p - 1) : ℕ) : ℚ) ≤ x / 2 ^ (ilog2 x - ((p : ℤ) - 1)) := by
    rw [le_div_iff₀ hE]
    have : ((2 ^ (p - 1) : ℕ) : ℚ) * 2 ^ (ilog2 x - ((p : ℤ) - 1)) = 2 ^ ilog2 x := by
      push_cast
      rw [← zpow_natCast, ← zpow_add₀ (two_ne_zero)]
      congr 1
      have : ((p - 1 : ℕ) : ℤ) = (p : ℤ) - 1 := by omega
      rw [this]; ring
    rw [this]; exact s1
  have hhi : x / 2 ^ (ilog2 x - ((p : ℤ) - 1)) < ((2 ^ p : ℕ) : ℚ) := by
    rw [div_lt_iff₀ hE]
    have : ((2 ^ p : ℕ) : ℚ) * 2 ^ (ilog2 x - ((p : ℤ) - 1)) = 2 ^ (ilog2 x + 1) := by
      push_cast
      rw [← zpow_natCast, ← zpow_add₀ (two_ne_zero)]
      congr 1
      ring
    rw [this]; exact s2
  have r1 : ((2 ^ (p - 1) : ℕ) : ℤ) ≤ roundHalfEven (x / 2 ^ (ilog2 x - ((p : ℤ) - 1))) :=
    le_roundHalfEven _ _ (by exact_mod_cast hlo)
  have r2 : roundHalfEven (x / 2 ^ (ilog2 x - ((p : ℤ) - 1))) ≤ ((2 ^ p : ℕ) : ℤ) :=
    roundHalfEven_le _ _ (by exact_mod_cast hhi)
  have hnn : 0 ≤ roundHalfEven (x / 2 ^ (ilog2 x - ((p : ℤ) - 1))) :=
    le_trans (Int.natCast_nonneg _) r1
  have hcz : (((roundHalfEven (x / 2 ^ (ilog2 x - ((p : ℤ) - 1)))).toNat : ℕ) : ℤ)
      = roundHalfEven (x / 2 ^ (ilog2 x - ((p : ℤ) - 1))) := Int.toNat_of_nonneg hnn
  refine ⟨(roundHalfEven (x / 2 ^ (ilog2 x - ((p : ℤ) - 1)))).toNat, ?_, ?_, ?_⟩
  · rw [← hcz] at r1; exact_mod_cast r1
  · rw [← hcz] at r2; exact_mod_cast r2
  · have hc : (((roundHalfEven (x / 2 ^ (ilog2 x - ((p : ℤ) - 1)))).toNat : ℕ) : ℚ)
        = ((roundHalfEven (x / 2 ^ (ilog2 x - ((p : ℤ) - 1))) : ℤ) : ℚ) := by
      exact_mod_cast hcz
    rw [hc]
    unfold roundTo
    rw [if_neg hx.ne', if_neg (not_lt.mpr hx.le)]

/-- Numbers with a significand of at most `p` bits are left alone by the rounding. -/
theorem roundTo_exact (p : Nat) (hp : 1 ≤ p) (m : ℕ) (e : ℤ) (hm : m ≤ 2 ^ p) :
    roundTo p ((m : ℚ) * 2 ^ e) = (m : ℚ) * 2 ^ e := by
  rcases Nat.eq_zero_or_pos m with h0 | hm0
  · subst h0; simp [roundTo]
  have hx : (0 : ℚ) < (m : ℚ) * 2 ^ e := by positivity
  obtain ⟨s1, s2⟩ := ilog2_spec _ hx
  have hE : (0 : ℚ) < 2 ^ (ilog2 ((m : ℚ) * 2 ^ e) - ((p : ℤ) - 1)) := by positivity
  -- the scaled value is an integer
  have key : ∃ n : ℤ, (m : ℚ) * 2 ^ e / 2 ^ (ilog2 ((m : ℚ) * 2 ^ e) - ((p : ℤ) - 1)) = (n : ℚ) := by
    by_cases hle : ilog2 ((m : ℚ) * 2 ^ e) - ((p : ℤ) - 1) ≤ e
    · obtain ⟨d, hd⟩ := Int.le.dest hle
      refine ⟨(m : ℤ) * 2 ^ d, ?_⟩
      rw [div_eq_iff hE.ne']
      push_cast
      rw [mul_assoc, ← zpow_natCast, ← zpow_add₀ (two_ne_zero)]
      congr 2
      omega
    · -- then m = 2^p and the exponent is e + 1
      have hL : (p : ℤ) + e ≤ ilog2 ((m : ℚ) * 2 ^ e) := by omega
      have hmq : (m : ℚ) ≤ 2 ^ (p : ℤ) := by rw [zpow_natCast]; exact_mod_cast hm
      have hup : (m : ℚ) * 2 ^ e ≤ 2 ^ ((p : ℤ) + e) := by
        rw [zpow_add₀ (two_ne_zero)]
        exact mul_le_mul_of_nonneg_right hmq (by positivity)
      have hL2 : ilog2 ((m : ℚ) * 2 ^ e) ≤ (p : ℤ) + e :=
        (zpow_le_zpow_iff_right₀ (by norm_num : (1 : ℚ) < 2)).mp (le_trans s1 hup)
      have hLe : ilog2 ((m : ℚ) * 2 ^ e) = (p : ℤ) + e := le_antisymm hL2 hL
      have hmeq : (m : ℚ) * 2 ^ e = 2 ^ ((p : ℤ) + e) := by
        apply le_antisymm hup
        rw [← hLe]; exact s1
      refine ⟨2 ^ (p - 1), ?_⟩
      rw [div_eq_iff hE.ne', hLe, hmeq]
      push_cast
      rw [← zpow_natCast, ← zpow_add₀ (two_ne_zero)]
      congr 1
      have : ((p - 1 : ℕ) : ℤ) = (p : ℤ) - 1 := by omega
      rw [this]; ring
  obtain ⟨n, hn⟩ := key
  unfold roundTo
  rw [if_neg hx.ne', if_neg (not_lt.mpr hx.le), hn, roundHalfEven_intCast, ← hn]
  exact div_mul_cancel₀ _ hE.ne'

theorem roundTo_zero (p : Nat) : roundTo p 0 = 0 := by simp [roundTo]

theorem roundTo_idem (p : Nat) (hp : 1 ≤ p) (x : ℚ) (hx : 0 ≤ x) :
    roundTo p (roundTo p x) = roundTo p x := by
  rcases hx.eq_or_lt with h0 | hpos
  · rw [← h0, roundTo_zero, roundTo_zero]
  · obtain ⟨m, -, hm, hf⟩ := roundTo_pos_form p hp x hpos
    rw [hf]; exact roundTo_exact p hp m _ hm

/-- Rounding does not go below a power of two that the argument reaches. -/
theorem roundTo_ge_zpow (p : Nat) (hp : 1 ≤ p) (x : ℚ) (j : ℤ) (h : (2 : ℚ) ^ j ≤ x) :
    (2 : ℚ) ^ j ≤ roundTo p x := by
  have hx : 0 < x := lt_of_lt_of_le (by positivity) h
  obtain ⟨m, hm1, -, hf⟩ := roundTo_pos_form p hp x hx
  have hj := le_ilog2 x hx j h
  rw [hf]
  have h1 : (2 : ℚ) ^ ilog2 x = ((2 ^ (p - 1) : ℕ) : ℚ) * 2 ^ (ilog2 x - ((p : ℤ) - 1)) := by
    push_cast
    rw [← zpow_natCast, ← zpow_add₀ (two_ne_zero)]
    congr 1
    have : ((p - 1 : ℕ) : ℤ) = (p : ℤ) - 1 := by omega
    rw [this]; ring
  calc (2 : ℚ) ^ j ≤ 2 ^ ilog2 x := zpow_le_zpow_right₀ (by norm_num) hj
    _ = ((2 ^ (p - 1) : ℕ) : ℚ) * 2 ^ (ilog2 x - ((p : ℤ) - 1)) := h1
    _ ≤ (m : ℚ) * 2 ^ (ilog2 x - ((p : ℤ) - 1)) :=
        mul_le_mul_of_nonneg_right (by exact_mod_cast hm1) (by positivity)

/-! ## Correctly rounded square root -/

theorem four_zpow (e : ℤ) : (4 : ℚ) ^ e = 2 ^ (2 * e) := by
  rw [zpow_mul]; norm_num

theorem sqrtNearest_mem (y : ℚ) :
    sqrtNearest y = isqrt ⌊y⌋.toNat ∨ sqrtNearest y = isqrt ⌊y⌋.toNat + 1 := by
  unfold sqrtNearest
  split_ifs <;> simp

/-- Shape of a square root: a significand between `2^(p-1)` and `2^p` at the exponent
`ilog2 x / 2 - (p - 1)`. -/
theorem sqrtRound_pos_form (p : Nat) (hp : 1 ≤ p) (x : ℚ) (hx : 0 < x) :
    ∃ m : ℕ, 2 ^ (p - 1) ≤ m ∧ m ≤ 2 ^ p ∧
      sqrtRound p x = (m : ℚ) * 2 ^ (ilog2 x / 2 - ((p : ℤ) - 1)) := by
  obtain ⟨s1, s2⟩ := ilog2_spec x hx
  have hE : (0 : ℚ) < 2 ^ (2 * (ilog2 x / 2 - ((p : ℤ) - 1))) := by positivity
  have hcast : ((p - 1 : ℕ) : ℤ) = (p : ℤ) - 1 := by omega
  have hlo : (((2 ^ (p - 1)) * (2 ^ (p - 1)) : ℕ) : ℚ) ≤ x / 4 ^ (ilog2 x / 2 - ((p : ℤ) - 1)) := by
    rw [four_zpow, le_div_iff₀ hE]
    push_cast
    rw [← zpow_natCast, ← zpow_add₀ (two_ne_zero), ← zpow_add₀ (two_ne_zero), hcast]
    refine le_trans (zpow_le_zpow_right₀ (by norm_num) ?_) s1
    omega
  have hhi : x / 4 ^ (ilog2 x / 2 - ((p : ℤ) - 1)) < (((2 ^ p) * (2 ^ p) : ℕ) : ℚ) := by
    rw [four_zpow, div_lt_iff₀ hE]
    push_cast
    rw [← zpow_natCast, ← zpow_add₀ (two_ne_zero), ← zpow_add₀ (two_ne_zero)]
    refine lt_of_lt_of_le s2 (zpow_le_zpow_right₀ (by norm_num) ?_)
    omega
  have hy0 : (0 : ℚ) ≤ x / 4 ^ (ilog2 x / 2 - ((p : ℤ) - 1)) := le_trans (Nat.cast_nonneg _) hlo
  have hfl0 : 0 ≤ ⌊x / 4 ^ (ilog2 x / 2 - ((p : ℤ) - 1))⌋ := Int.floor_nonneg.mpr hy0
  have hN : ((⌊x / 4 ^ (ilog2 x / 2 - ((p : ℤ) - 1))⌋.toNat : ℕ) : ℤ)
      = ⌊x / 4 ^ (ilog2 x / 2 - ((p : ℤ) - 1))⌋ := Int.toNat_of_nonneg hfl0
  have hN1 : (2 ^ (p - 1)) * (2 ^ (p - 1)) ≤ ⌊x / 4 ^ (ilog2 x / 2 - ((p : ℤ) - 1))⌋.toNat := by
    have : (((2 ^ (p - 1)) * (2 ^ (p - 1)) : ℕ) : ℤ) ≤ ⌊x / 4 ^ (ilog2 x / 2 - ((p : ℤ) - 1))⌋ :=
      Int.le_floor.mpr (by exact_mod_cast hlo)
    rw [← hN] at this; exact_mod_cast this
  have hN2 : ⌊x / 4 ^ (ilog2 x / 2 - ((p : ℤ) - 1))⌋.toNat < (2 ^ p) * (2 ^ p) := by
    have : ⌊x / 4 ^ (ilog2 x / 2 - ((p : ℤ) - 1))⌋ < (((2 ^ p) * (2 ^ p) : ℕ) : ℤ) :=
      Int.floor_lt.mpr (by exact_mod_cast hhi)
    rw [← hN] at this; exact_mod_cast this
  obtain ⟨k1, k2⟩ := isqrt_spec ⌊x / 4 ^ (ilog2 x / 2 - ((p : ℤ) - 1))⌋.toNat
  have hk1 : 2 ^ (p - 1) ≤ isqrt ⌊x / 4 ^ (ilog2 x / 2 - ((p : ℤ) - 1))⌋.toNat := by
    by_contra hc
    have h3 : isqrt ⌊x / 4 ^ (ilog2 x / 2 - ((p : ℤ) - 1))⌋.toNat + 1 ≤ 2 ^ (p - 1) := by omega
    have := Nat.mul_le_mul h3 h3
    omega
  have hk2 : isqrt ⌊x / 4 ^ (ilog2 x / 2 - ((p : ℤ) - 1))⌋.toNat < 2 ^ p := by
    by_contra hc
    have h3 : 2 ^ p ≤ isqrt ⌊x / 4 ^ (ilog2 x / 2 - ((p : ℤ) - 1))⌋.toNat := by omega
    have := Nat.mul_le_mul h3 h3
    omega
  refine ⟨sqrtNearest (x / 4 ^ (ilog2 x / 2 - ((p : ℤ) - 1))), ?_, ?_, ?_⟩
  · rcases sqrtNearest_mem (x / 4 ^ (ilog2 x / 2 - ((p : ℤ) - 1))) with h | h <;> omega
  · rcases sqrtNearest_mem (x / 4 ^ (ilog2 x / 2 - ((p : ℤ) - 1))) with h | h <;> omega
  · unfold sqrtRound
    rw [if_neg (not_le.mpr hx)]

theorem sqrtRound_nonpos (p : Nat) (x : ℚ) (hx : x ≤ 0) : sqrtRound p x = 0 := by
  unfold sqrtRound; rw [if_pos hx]

/-- The square root does not go below `2^j` when the argument reaches `4^j`. -/
theorem sqrtRound_ge_zpow (p : Nat) (hp : 1 ≤ p) (x : ℚ) (j : ℤ) (h : (2 : ℚ) ^ (2 * j) ≤ x) :
    (2 : ℚ) ^ j ≤ sqrtRound p x := by
  have hx : 0 < x := lt_of_lt_of_le (by positivity) h
  obtain ⟨m, hm1, -, hf⟩ := sqrtRound_pos_form p hp x hx
  have hj := le_ilog2 x hx (2 * j) h
  have hcast : ((p - 1 : ℕ) : ℤ) = (p : ℤ) - 1 := by omega
  rw [hf]
  have h1 : (2 : ℚ) ^ (ilog2 x / 2)
      = ((2 ^ (p - 1) : ℕ) : ℚ) * 2 ^ (ilog2 x / 2 - ((p : ℤ) - 1)) := by
    push_cast
    rw [← zpow_natCast, ← zpow_add₀ (two_ne_zero), hcast]
    congr 1
    ring
  calc (2 : ℚ) ^ j ≤ 2 ^ (ilog2 x / 2) := zpow_le_zpow_right₀ (by norm_num) (by omega)
    _ = ((2 ^ (p - 1) : ℕ) : ℚ) * 2 ^ (ilog2 x / 2 - ((p : ℤ) - 1)) := h1
    _ ≤ (m : ℚ) * 2 ^ (ilog2 x / 2 - ((p : ℤ) - 1)) :=
        mul_le_mul_of_nonneg_right (by exact_mod_cast hm1) (by positivity)

/-! ## Exactly held values -/

theorem IsFloat.roundTo_eq {p : Nat} {x : ℚ} (hp : 1 ≤ p) (h : IsFloat p x) : roundTo p x = x := by
  obtain ⟨m, e, hm, rfl⟩ := h
  exact roundTo_exact p hp m e hm

theorem IsFloat.mul_zpow {p : Nat} {x : ℚ} (h : IsFloat p x) (k : ℤ) : IsFloat p (x * 2 ^ k) := by
  obtain ⟨m, e, hm, rfl⟩ := h
  exact ⟨m, e + k, hm, by rw [zpow_add₀ (two_ne_zero)]; ring⟩

theorem isFloat_zero (p : Nat) : IsFloat p 0 := ⟨0, 0, Nat.zero_le _, by simp⟩

theorem isFloat_roundTo (p : Nat) (hp : 1 ≤ p) (x : ℚ) (hx : 0 ≤ x) : IsFloat p (roundTo p x) := by
  rcases hx.eq_or_lt with h0 | hpos
  · rw [← h0, roundTo_zero]; exact isFloat_zero p
  · obtain ⟨m, -, hm, hf⟩ := roundTo_pos_form p hp x hpos
    exact ⟨m, _, hm, hf⟩

theorem isFloat_sqrtRound (p : Nat) (hp : 1 ≤ p) (x : ℚ) : IsFloat p (sqrtRound p x) := by
  rcases le_or_lt x 0 with h0 | hpos
  · rw [sqrtRound_nonpos p x h0]; exact isFloat_zero p
  · obtain ⟨m, -, hm, hf⟩ := sqrtRound_pos_form p hp x hpos
    exact ⟨m, _, hm, hf⟩

theorem roundTo_nonneg (p : Nat) (hp : 1 ≤ p) (x : ℚ) (hx : 0 ≤ x) : 0 ≤ roundTo p x := by
  rcases hx.eq_or_lt with h0 | hpos
  · rw [← h0, roundTo_zero]
  · obtain ⟨m, -, -, hf⟩ := roundTo_pos_form p hp x hpos
    rw [hf]; positivity

theorem sqrtRound_nonneg (p : Nat) (hp : 1 ≤ p) (x : ℚ) : 0 ≤ sqrtRound p x := by
  rcases le_or_lt x 0 with h0 | hpos
  · rw [sqrtRound_nonpos p x h0]
  · obtain ⟨m, -, -, hf⟩ := sqrtRound_pos_form p hp x hpos
    rw [hf]; positivity

/-! ## The computable helpers against the library notions -/

theorem isqrt_eq_sqrt (n : Nat) : isqrt n = Nat.sqrt n :=
  Nat.eq_sqrt.mpr (isqrt_spec n)

theorem ilog2_eq_log (x : ℚ) (hx : 0 < x) : ilog2 x = Int.log 2 x :=
  (ilog2_unique x hx (Int.log 2 x) (by exact_mod_cast Int.zpow_log_le_self (by norm_num) hx)
    (by exact_mod_cast Int.lt_zpow_succ_log_self (by norm_num) x))

theorem roundHalfEven_error (x : ℚ) : |(roundHalfEven x : ℚ) - x| ≤ 1 / 2 := by
  have h1 : (⌊x⌋ : ℚ) ≤ x := Int.floor_le x
  have h2 : x < (⌊x⌋ : ℚ) + 1 := Int.lt_floor_add_one x
  unfold roundHalfEven
  rw [abs_le]
  split_ifs <;> push_cast <;> constructor <;> linarith

/-- Rounding moves a positive number by at most half a unit in the last place. -/
theorem roundTo_error (p : Nat) (x : ℚ) (hx : 0 < x) :
    |roundTo p x - x| ≤ 2 ^ (ilog2 x - ((p : ℤ) - 1)) / 2 := by
  have hE : (0 : ℚ) < 2 ^ (ilog2 x - ((p : ℤ) - 1)) := by positivity
  have h := roundHalfEven_error (x / 2 ^ (ilog2 x - ((p : ℤ) - 1)))
  unfold roundTo
  rw [if_neg hx.ne', if_neg (not_lt.mpr hx.le)]
  have e : (roundHalfEven (x / 2 ^ (ilog2 x - ((p : ℤ) - 1))) : ℚ) * 2 ^ (ilog2 x - ((p : ℤ) - 1)) - x
      = ((roundHalfEven (x / 2 ^ (ilog2 x - ((p : ℤ) - 1))) : ℚ)
          - x / 2 ^ (ilog2 x - ((p : ℤ) - 1))) * 2 ^ (ilog2 x - ((p : ℤ) - 1)) := by
    field_simp
  rw [e, abs_mul, abs_of_pos hE]
  calc |(roundHalfEven (x / 2 ^ (ilog2 x - ((p : ℤ) - 1))) : ℚ)
            - x / 2 ^ (ilog2 x - ((p : ℤ) - 1))| * 2 ^ (ilog2 x - ((p : ℤ) - 1))
      ≤ 1 / 2 * 2 ^ (ilog2 x - ((p : ℤ) - 1)) := mul_le_mul_of_nonneg_right h hE.le
    _ = 2 ^ (ilog2 x - ((p : ℤ) - 1)) / 2 := by ring

/-- The significand chosen for a square root is within one half of the exact root:
`(m - 1/2)^2 ≤ y ≤ (m + 1/2)^2`. -/
theorem sqrtNearest_error (y : ℚ) (hy : 1 ≤ y) :
    (((sqrtNearest y : ℕ) : ℚ) - 1 / 2) ^ 2 ≤ y ∧ y ≤ (((sqrtNearest y : ℕ) : ℚ) + 1 / 2) ^ 2 := by
  have hfl0 : 0 ≤ ⌊y⌋ := Int.floor_nonneg.mpr (by linarith)
  have hN : ((⌊y⌋.toNat : ℕ) : ℤ) = ⌊y⌋ := Int.toNat_of_nonneg hfl0
  have hNq : ((⌊y⌋.toNat : ℕ) : ℚ) = ((⌊y⌋ : ℤ) : ℚ) := by exact_mod_cast hN
  obtain ⟨k1, k2⟩ := isqrt_spec ⌊y⌋.toNat
  have f1 : ((⌊y⌋.toNat : ℕ) : ℚ) ≤ y := by rw [hNq]; exact Int.floor_le y
  have f2 : y < ((⌊y⌋.toNat : ℕ) : ℚ) + 1 := by rw [hNq]; exact Int.lt_floor_add_one y
  have k1q : ((isqrt ⌊y⌋.toNat : ℕ) : ℚ) * (isqrt ⌊y⌋.toNat : ℕ) ≤ ((⌊y⌋.toNat : ℕ) : ℚ) := by
    exact_mod_cast k1
  have k2q : ((⌊y⌋.toNat : ℕ) : ℚ) + 1
      ≤ (((isqrt ⌊y⌋.toNat : ℕ) : ℚ) + 1) * (((isqrt ⌊y⌋.toNat : ℕ) : ℚ) + 1) := by
    have : ⌊y⌋.toNat + 1 ≤ (isqrt ⌊y⌋.toNat + 1) * (isqrt ⌊y⌋.toNat + 1) := k2
    exact_mod_cast this
  have hk : (1 : ℚ) ≤ (isqrt ⌊y⌋.toNat : ℕ) := by
    have h1 : 1 ≤ ⌊y⌋ := Int.le_floor.mpr (by exact_mod_cast hy)
    have h2 : 1 ≤ ⌊y⌋.toNat := by omega
    have h3 : 1 ≤ isqrt ⌊y⌋.toNat := by
      by_contra hc
      have h0 : isqrt ⌊y⌋.toNat = 0 := by omega
      rw [h0] at k2
      omega
    exact_mod_cast h3
  unfold sqrtNearest
  split_ifs with c1 c2 c3
  · constructor <;> nlinarith
  · push_cast; constructor <;> nlinarith
  · have c : y = (((isqrt ⌊y⌋.toNat : ℕ) : ℚ) + 1 / 2) ^ 2 :=
      le_antisymm (not_lt.mp c2) (not_lt.mp c1)
    constructor <;> nlinarith
  · have c : y = (((isqrt ⌊y⌋.toNat : ℕ) : ℚ) + 1 / 2) ^ 2 :=
      le_antisymm (not_lt.mp c2) (not_lt.mp c1)
    push_cast; constructor <;> nlinarith

/-- The computed square root is within half a unit in the last place of the exact one:
`(r - u/2)^2 ≤ x ≤ (r + u/2)^2` for the result `r` and its unit `u`. -/
theorem sqrtRound_error (p : Nat) (hp : 1 ≤ p) (x : ℚ) (hx : 0 < x) :
    (sqrtRound p x - 2 ^ (ilog2 x / 2 - ((p : ℤ) - 1)) / 2) ^ 2 ≤ x ∧
      x ≤ (sqrtRound p x + 2 ^ (ilog2 x / 2 - ((p : ℤ) - 1)) / 2) ^ 2 := by
  obtain ⟨s1, s2⟩ := ilog2_spec x hx
  have hu : (0 : ℚ) < 2 ^ (ilog2 x / 2 - ((p : ℤ) - 1)) := by positivity
  have h4 : (4 : ℚ) ^ (ilog2 x / 2 - ((p : ℤ) - 1))
      = 2 ^ (ilog2 x / 2 - ((p : ℤ) - 1)) * 2 ^ (ilog2 x / 2 - ((p : ℤ) - 1)) := by
    rw [four_zpow, two_mul, zpow_add₀ (two_ne_zero)]
  have hy1 : 1 ≤ x / 4 ^ (ilog2 x / 2 - ((p : ℤ) - 1)) := by
    rw [four_zpow, le_div_iff₀ (by positivity), one_mul]
    refine le_trans (zpow_le_zpow_right₀ (by norm_num) ?_) s1
    omega
  obtain ⟨e1, e2⟩ := sqrtNearest_error _ hy1
  have hxy : x = x / 4 ^ (ilog2 x / 2 - ((p : ℤ) - 1))
      * (2 ^ (ilog2 x / 2 - ((p : ℤ) - 1)) * 2 ^ (ilog2 x / 2 - ((p : ℤ) - 1))) := by
    rw [← h4]; field_simp
  unfold sqrtRound
  rw [if_neg (not_le.mpr hx)]
  generalize (sqrtNearest (x / 4 ^ (ilog2 x / 2 - ((p : ℤ) - 1))) : ℚ) = m at e1 e2
  generalize x / 4 ^ (ilog2 x / 2 - ((p : ℤ) - 1)) = y at e1 e2 hxy hy1
  generalize (2 : ℚ) ^ (ilog2 x / 2 - ((p : ℤ) - 1)) = u at hu hxy
  have hu2 : 0 < u * u := mul_pos hu hu
  constructor
  · have : (m * u - u / 2) ^ 2 = (m - 1 / 2) ^ 2 * (u * u) := by ring
    rw [this, hxy]
    exact mul_le_mul_of_nonneg_right e1 hu2.le
  · have : (m * u + u / 2) ^ 2 = (m + 1 / 2) ^ 2 * (u * u) := by ring
    rw [this]
    calc x = y * (u * u) := hxy
      _ ≤ (m + 1 / 2) ^ 2 * (u * u) := mul_le_mul_of_nonneg_right e2 hu2.le

/-! ## The float operations of the sizer -/

theorem one_le_int_to_float (w : Int) (hw : 0 < w) : 1 ≤ int_to_float w := by
  have h : (2 : ℚ) ^ (0 : ℤ) ≤ (w : ℚ) := by
    rw [zpow_zero]; exact_mod_cast hw
  simpa using roundTo_ge_zpow 24 (by norm_num) (w : ℚ) 0 h

theorem one_le_uint_to_float (n : Nat) (hn : 1 ≤ n) : 1 ≤ uint_to_float n := by
  have h : (2 : ℚ) ^ (0 : ℤ) ≤ (n : ℚ) := by
    rw [zpow_zero]; exact_mod_cast hn
  simpa using roundTo_ge_zpow 24 (by norm_num) (n : ℚ) 0 h

theorem isFloat_uint_to_float (n : Nat) : IsFloat 24 (uint_to_float n) :=
  isFloat_roundTo 24 (by norm_num) _ (Nat.cast_nonneg n)

theorem roundTo_one : roundTo 24 1 = 1 := by
  simpa using roundTo_exact 24 (by norm_num) 1 0 Nat.one_le_two_pow

theorem float_div_self (a : ℚ) (ha : 0 < a) : float_div a a = 1 := by
  unfold float_div
  rw [div_self ha.ne', roundTo_one]

theorem float_div_one (a : ℚ) (ha : IsFloat 24 a) : float_div a 1 = a := by
  unfold float_div
  rw [div_one]; exact ha.roundTo_eq (by norm_num)

theorem float_mul_one (a : ℚ) (ha : IsFloat 24 a) : float_mul a 1 = a := by
  unfold float_mul
  rw [mul_one]; exact ha.roundTo_eq (by norm_num)

theorem float_div_two (a : ℚ) (ha : IsFloat 24 a) : float_div a 2 = a / 2 := by
  unfold float_div
  have h : a / 2 = a * 2 ^ (-1 : ℤ) := by rw [zpow_neg_one]; ring
  rw [h]; exact (ha.mul_zpow (-1)).roundTo_eq (by norm_num)

theorem float_mul_two (a : ℚ) (ha : IsFloat 24 a) : float_mul a 2 = a * 2 := by
  unfold float_mul
  have h : a * 2 = a * 2 ^ (1 : ℤ) := by rw [zpow_one]
  rw [h]; exact (ha.mul_zpow 1).roundTo_eq (by norm_num)

theorem one_le_float_sqrt (a : ℚ) (ha : 1 ≤ a) : 1 ≤ float_sqrt a := by
  have h : (2 : ℚ) ^ (2 * (0 : ℤ)) ≤ a := by simpa using ha
  simpa using sqrtRound_ge_zpow 24 (by norm_num) a 0 h

theorem half_le_float_sqrt (a : ℚ) (ha : 1 / 2 ≤ a) : 1 / 2 ≤ float_sqrt a := by
  have h : (2 : ℚ) ^ (2 * (-1 : ℤ)) ≤ a := by
    have : (2 : ℚ) ^ (2 * (-1 : ℤ)) = 1 / 4 := by norm_num [zpow_neg]
    rw [this]; linarith
  have := sqrtRound_ge_zpow 24 (by norm_num) a (-1) h
  rw [zpow_neg_one] at this
  unfold float_sqrt
  linarith

theorem isFloat_float_sqrt (a : ℚ) : IsFloat 24 (float_sqrt a) :=
  isFloat_sqrtRound 24 (by norm_num) a

theorem one_le_float_to_uint (x : ℚ) (hx : 1 ≤ x) : 1 ≤ float_to_uint x := by
  unfold float_to_uint
  have : (1 : ℤ) ≤ ⌊x⌋ := Int.le_floor.mpr (by exact_mod_cast hx)
  omega

/-- Truncation of a doubled value: twice the truncation, or one more. -/
theorem float_to_uint_double (x : ℚ) (hx : 0 ≤ x) :
    2 * float_to_uint x ≤ float_to_uint (x * 2) ∧ float_to_uint (x * 2) ≤ 2 * float_to_uint x + 1 := by
  unfold float_to_uint
  have h0 : 0 ≤ ⌊x⌋ := Int.floor_nonneg.mpr hx
  have h1 : (⌊x⌋ : ℚ) ≤ x := Int.floor_le x
  have h2 : x < (⌊x⌋ : ℚ) + 1 := Int.lt_floor_add_one x
  have h3 : 2 * ⌊x⌋ ≤ ⌊x * 2⌋ := Int.le_floor.mpr (by push_cast; linarith)
  have h4 : ⌊x * 2⌋ < 2 * ⌊x⌋ + 2 := Int.floor_lt.mpr (by push_cast; linarith)
  omega

/-- Lines 169-175 for `w == h`: both candidates are the truncated square root of the
budget, which is at least one for a budget of at least one. -/
theorem local_size_xy_aspect_square (B : Nat) (hB : 1 ≤ B) (w : Int) (hw : 0 < w) :
    (local_size_xy_aspect B w w).1 = (local_size_xy_aspect B w w).2 ∧
      1 ≤ (local_size_xy_aspect B w w).1 := by
  have hps : float_div (int_to_float w) (int_to_float w) = 1 :=
    float_div_self _ (lt_of_lt_of_le one_pos (one_le_int_to_float w hw))
  have hs1 : 1 ≤ float_sqrt (uint_to_float B) := one_le_float_sqrt _ (one_le_uint_to_float B hB)
  have ht := one_le_float_to_uint _ hs1
  unfold local_size_xy_aspect
  rw [if_neg (lt_irrefl w)]
  simp only [hps, float_div_one _ (isFloat_uint_to_float B),
    float_mul_one _ (isFloat_float_sqrt _)]
  exact ⟨(max_eq_left ht).symm, ht⟩

theorem float_div_100_50 : float_div (int_to_float 100) (int_to_float 50) = 2 := by decide!

/-- Lines 169-175 for `w = 100`, `h = 50`: the x candidate is twice the y candidate or one
more, and both are at least one, for a budget of at least one. -/
theorem local_size_xy_aspect_100_50 (B : Nat) (hB : 1 ≤ B) :
    1 ≤ (local_size_xy_aspect B 100 50).2 ∧
      2 * (local_size_xy_aspect B 100 50).2 ≤ (local_size_xy_aspect B 100 50).1 + 1 ∧
      (local_size_xy_aspect B 100 50).1 ≤ 2 * (local_size_xy_aspect B 100 50).2 + 1 ∧
      1 ≤ (local_size_xy_aspect B 100 50).1 := by
  have hb := one_le_uint_to_float B hB
  have hx : float_div (uint_to_float B) 2 = uint_to_float B / 2 :=
    float_div_two _ (isFloat_uint_to_float B)
  have hs : 1 / 2 ≤ float_sqrt (uint_to_float B / 2) := half_le_float_sqrt _ (by linarith)
  have hd := float_to_uint_double (float_sqrt (uint_to_float B / 2)) (by linarith)
  have h1 : 1 ≤ float_to_uint (float_sqrt (uint_to_float B / 2) * 2) :=
    one_le_float_to_uint _ (by linarith)
  unfold local_size_xy_aspect
  rw [if_neg (by norm_num)]
  simp only [float_div_100_50, hx, float_mul_two _ (isFloat_float_sqrt _)]
  refine ⟨le_max_right _ _, ?_, ?_, h1⟩
  · rcases le_total (float_to_uint (float_sqrt (uint_to_float B / 2))) 1 with h | h
    · rw [max_eq_right h]; omega
    · rw [max_eq_left h]; omega
  · have := le_max_left (float_to_uint (float_sqrt (uint_to_float B / 2))) 1
    omega

/-! ## `set_optimal_local_size_xyz`: the channel axis and totality -/

theorem optimal_local_size_z_pos (info : GpuInfo) (c : Int)
    (hz : 1 ≤ info.max_workgroup_size_z) : 1 ≤ optimal_local_size_z info c := by
  unfold optimal_local_size_z
  split
  · exact halve_while_above_pos _ _ (by omega) hz
  · omega

theorem optimal_local_size_z_le (info : GpuInfo) (c : Int) :
    optimal_local_size_z info c ≤ info.max_workgroup_size_z := by
  unfold optimal_local_size_z
  split
  · exact halve_while_above_le _ _
  · omega

/-- Whatever the branch taken for x and y, the z size stored is the one of lines 134-145. -/
theorem set_optimal_local_size_z (info : GpuInfo) (p p' : Pipeline) (w h c : Int)
    (hr : p.set_optimal_local_size_xyz info w h c = some p') :
    p'.local_size_z = optimal_local_size_z info c := by
  unfold Pipeline.set_optimal_local_size_xyz at hr
  simp only at hr
  split_ifs at hr <;> simp only [Option.some.injEq, reduceCtorEq] at hr <;> subst hr <;> rfl

/-- The call divides by zero only when a divisor can be zero: it completes when the z size
is between one and the invocation limit and the x and y limits are positive. -/
theorem set_optimal_isSome (info : GpuInfo) (p : Pipeline) (w h c : Int)
    (hz : 1 ≤ optimal_local_size_z info c)
    (hi : optimal_local_size_z info c ≤ info.max_workgroup_invocations)
    (hx : 1 ≤ info.max_workgroup_size_x) (hy : 1 ≤ info.max_workgroup_size_y) :
    ∃ p', p.set_optimal_local_size_xyz info w h c = some p' := by
  have hB : 1 ≤ info.max_workgroup_invocations / optimal_local_size_z info c :=
    (Nat.one_le_div_iff (by omega)).mpr hi
  unfold Pipeline.set_optimal_local_size_xyz
  simp only
  rw [if_neg (by omega)]
  by_cases h1 : h > 0 ∧ w > 0
  · rw [if_pos h1]; exact ⟨_, rfl⟩
  · rw [if_neg h1]
    by_cases h2 : h > 0
    · rw [if_pos h2]
      have : 1 ≤ halve_while_above h.toNat
          (min (info.max_workgroup_invocations / optimal_local_size_z info c)
            info.max_workgroup_size_y) :=
        halve_while_above_pos _ _ (by omega) (by omega)
      rw [if_neg (by omega)]; exact ⟨_, rfl⟩
    · rw [if_neg h2]
      by_cases h3 : w > 0
      · rw [if_pos h3]
        have : 1 ≤ halve_while_above w.toNat
            (min (info.max_workgroup_invocations / optimal_local_size_z info c)
              info.max_workgroup_size_x) :=
          halve_while_above_pos _ _ (by omega) (by omega)
        rw [if_neg (by omega)]; exact ⟨_, rfl⟩
      · rw [if_neg h3]; exact ⟨_, rfl⟩

/-- The x and y sizes left by the call when both extents are positive. -/
theorem set_optimal_both_positive (info : GpuInfo) (p : Pipeline) (w h c : Int)
    (hz : 1 ≤ optimal_local_size_z info c) (hh : 0 < h) (hw : 0 < w) :
    ∃ p', p.set_optimal_local_size_xyz info w h c = some p' ∧
      p'.local_size_x =
        halve_while_above
          (local_size_xy_aspect
            (info.max_workgroup_invocations / optimal_local_size_z info c) w h).1
          (min 128 info.max_workgroup_size_x) ∧
      p'.local_size_y =
        halve_while_above
          (local_size_xy_aspect
            (info.max_workgroup_invocations / optimal_local_size_z info c) w h).2
          (min 128 info.max_workgroup_size_y) := by
  unfold Pipeline.set_optimal_local_size_xyz
  simp only
  rw [if_neg (by omega), if_pos ⟨hh, hw⟩]
  exact ⟨_, rfl, rfl, rfl⟩

/-- The x and y sizes left by the call when neither extent is positive and the symmetric
branch is taken. -/
theorem set_optimal_symmetric_nonpos (info : GpuInfo) (p : Pipeline) (w h c : Int)
    (hz : 1 ≤ optimal_local_size_z info c) (hsym : h = w ∨ (h < 0 ∧ w < 0)) (hh : h ≤ 0)
    (hw : w ≤ 0) :
    ∃ p', p.set_optimal_local_size_xyz info w h c = some p' ∧
      p'.local_size_x =
        local_size_xy_symmetric (info.max_workgroup_invocations / optimal_local_size_z info c) ∧
      p'.local_size_y =
        local_size_xy_symmetric (info.max_workgroup_invocations / optimal_local_size_z info c) := by
  unfold Pipeline.set_optimal_local_size_xyz
  simp only
  rw [if_neg (by omega), if_pos hsym, if_neg (by omega), if_neg (by omega), if_neg (by omega)]
  exact ⟨_, rfl, rfl, rfl⟩

/-- The loop started at `128` returns the largest of `128, 64, ..., 1` that is at most
the bound, and `0` for the bound `0`. -/
theorem halve_while_above_128_cases (x : Nat) :
    (128 ≤ x ∧ halve_while_above x 128 = 128) ∨
      (64 ≤ x ∧ x < 128 ∧ halve_while_above x 128 = 64) ∨
      (32 ≤ x ∧ x < 64 ∧ halve_while_above x 128 = 32) ∨
      (16 ≤ x ∧ x < 32 ∧ halve_while_above x 128 = 16) ∨
      (8 ≤ x ∧ x < 16 ∧ halve_while_above x 128 = 8) ∨
      (4 ≤ x ∧ x < 8 ∧ halve_while_above x 128 = 4) ∨
      (2 ≤ x ∧ x < 4 ∧ halve_while_above x 128 = 2) ∨
      (x = 1 ∧ halve_while_above x 128 = 1) ∨ (x = 0 ∧ halve_while_above x 128 = 0) := by
  rw [halve_while_above_128]
  split_ifs <;> omega

/-- Snapping to the sequence `128, 64, ..., 1` keeps a candidate pair `a ≈ 2 b` within
`b ≤ a ≤ 2 b`. -/
theorem snap_128_ratio (a b : Nat) (h1 : 1 ≤ b) (h2 : 2 * b ≤ a + 1) (h3 : a ≤ 2 * b + 1)
    (h4 : 1 ≤ a) :
    halve_while_above b 128 ≤ halve_while_above a 128 ∧
      halve_while_above a 128 ≤ 2 * halve_while_above b 128 := by
  have ha := halve_while_above_128_cases a
  have hb := halve_while_above_128_cases b
  omega

/-! ## Claims about `set_optimal_local_size_xyz` -/

/-- C1 (the code breaks the claimed bound). With the limits
`max_workgroup_invocations = 1024`, `max_workgroup_size = (1024, 1024, 64)` the call
`set_optimal_local_size_xyz(1, 64, 64)` completes and leaves the local size `(1, 32, 64)`:
`2048` invocations, twice the device limit. The z size takes `64`, the budget for x and y
is `16`, and the aspect branch computes `ps = 64`, `sqrt(16 / 64) = 0.5`, clamps x up to
`1` and sets y to `0.5 * 64 = 32`. -/
theorem set_optimal_local_size_xyz_exceeds_invocations :
    ∃ p', Pipeline.new.set_optimal_local_size_xyz ⟨1024, 1024, 64, 1024, true, true⟩ 1 64 64
        = some p' ∧
      p'.local_size = (1, 32, 64) ∧
      1024 / optimal_local_size_z ⟨1024, 1024, 64, 1024, true, true⟩ 64 = 16 ∧
      local_size_xy_aspect 16 1 64 = (1, 32) ∧
      ¬ p'.local_size_x * p'.local_size_y * p'.local_size_z ≤ 1024 :=
  ⟨{ Pipeline.new with local_size_x := 1, local_size_y := 32, local_size_z := 64 },
    by decide!, by decide!, by decide!, by decide!, by decide!⟩

/-- C2. For `c > 0` and `max_workgroup_size[2] ≥ 1` the z size chosen by
`set_optimal_local_size_xyz` is the first element of `max_z, max_z / 2, max_z / 4, ...`
that is at most `c`: it is `max_z / 2^k` for a `k` such that every earlier element exceeds
`c`; so it lies between `1` and `min(c, max_z)`, and it is `max_z` itself or the element
before it exceeds `c`. Every completed call stores this value, and a call completes
whenever the value fits the invocation limit and the x and y limits are positive.
Literal input: with `max_workgroup_invocations = 1024` and `max_workgroup_size =
(1024, 1024, 64)` the call `(224, 224, 3)` walks `64, 32, 16, 8, 4, 2`, ends with
`local_size_z = 2`, budget `512` and `local_size_x = local_size_y = 16`. -/
theorem local_size_z_first_fit (info : GpuInfo) (c : Int) (hc : 0 < c)
    (hz : 1 ≤ info.max_workgroup_size_z) :
    (∃ k, optimal_local_size_z info c = info.max_workgroup_size_z / 2 ^ k ∧
        ((info.max_workgroup_size_z / 2 ^ k : ℕ) : ℤ) ≤ c ∧
        ∀ j, j < k → c < ((info.max_workgroup_size_z / 2 ^ j : ℕ) : ℤ)) ∧
      1 ≤ optimal_local_size_z info c ∧
      optimal_local_size_z info c ≤ info.max_workgroup_size_z ∧
      ((optimal_local_size_z info c : ℕ) : ℤ) ≤ c ∧
      (optimal_local_size_z info c = info.max_workgroup_size_z ∨
        ∃ k, optimal_local_size_z info c = info.max_workgroup_size_z / 2 ^ (k + 1) ∧
          c < ((info.max_workgroup_size_z / 2 ^ k : ℕ) : ℤ)) ∧
      (∀ (p p' : Pipeline) (w h : Int),
        p.set_optimal_local_size_xyz info w h c = some p' →
          p'.local_size_z = optimal_local_size_z info c) ∧
      (∀ (p : Pipeline) (w h : Int),
        optimal_local_size_z info c ≤ info.max_workgroup_invocations →
          1 ≤ info.max_workgroup_size_x → 1 ≤ info.max_workgroup_size_y →
            ∃ p', p.set_optimal_local_size_xyz info w h c = some p' ∧
              p'.local_size_z = optimal_local_size_z info c) ∧
      ((List.range 6).map (fun j => 64 / 2 ^ j) = [64, 32, 16, 8, 4, 2] ∧
        (∀ j, j < 5 → 3 < 64 / 2 ^ j) ∧
        optimal_local_size_z ⟨1024, 1024, 64, 1024, true, true⟩ 3 = 64 / 2 ^ 5 ∧
        1024 / optimal_local_size_z ⟨1024, 1024, 64, 1024, true, true⟩ 3 = 512 ∧
        (Pipeline.new.set_optimal_local_size_xyz ⟨1024, 1024, 64, 1024, true, true⟩ 224 224 3).map
            Pipeline.local_size = some (16, 16, 2)) := by
  have hlz : optimal_local_size_z info c = halve_while_above c.toNat info.max_workgroup_size_z := by
    unfold optimal_local_size_z; rw [if_pos hc]
  have hpos := optimal_local_size_z_pos info c hz
  have hle := optimal_local_size_z_le info c
  have hbound : optimal_local_size_z info c ≤ c.toNat := by
    rw [hlz]; exact halve_while_above_le_bound _ _
  obtain ⟨k, hk, hlt⟩ :=
    halveLoop_first c.toNat info.max_workgroup_size_z info.max_workgroup_size_z
  have hk2 : optimal_local_size_z info c = info.max_workgroup_size_z / 2 ^ k := by
    rw [hlz]; exact hk
  refine ⟨⟨k, hk2, ?_, ?_⟩, hpos, hle, by omega, ?_, ?_, ?_, ?_⟩
  · rw [← hk2]; omega
  · intro j hj
    have := hlt j hj
    omega
  · cases k with
    | zero => left; simpa using hk2
    | succ k =>
      right
      refine ⟨k, hk2, ?_⟩
      have := hlt k (by omega)
      omega
  · intro p p' w h hr
    exact set_optimal_local_size_z info p p' w h c hr
  · intro p w h hi hx hy
    obtain ⟨p', hp'⟩ := set_optimal_isSome info p w h c hpos hi hx hy
    exact ⟨p', hp', set_optimal_local_size_z info p p' w h c hp'⟩
  · exact ⟨by decide, by decide, by decide!, by decide!, by decide!⟩

/-- C2 at the literal input of the specification: limits `1024` and `(1024, 1024, 64)`,
`c = 3`. -/
theorem local_size_z_first_fit_witness :
    1 ≤ optimal_local_size_z ⟨1024, 1024, 64, 1024, true, true⟩ 3 ∧
      ((optimal_local_size_z ⟨1024, 1024, 64, 1024, true, true⟩ 3 : ℕ) : ℤ) ≤ 3 ∧
      (Pipeline.new.set_optimal_local_size_xyz ⟨1024, 1024, 64, 1024, true, true⟩ 224 224 3).map
          Pipeline.local_size = some (16, 16, 2) :=
  have h := local_size_z_first_fit ⟨1024, 1024, 64, 1024, true, true⟩ 3 (by decide) (by decide)
  ⟨h.2.1, h.2.2.2.1, h.2.2.2.2.2.2.2.2.2.2.2⟩

/-- C7, as stated, fails: with the positive limits `max_workgroup_size = (100, 128, 64)`
and `max_workgroup_invocations = 1024` the call `(7, 7, -1)` has `w == h` and leaves
`local_size_x = 3`, `local_size_y = 4`. (Both candidates are `4`; the x size is snapped
along `100, 50, 25, 12, 6, 3`, the y size along `128, 64, ..., 4`.) -/
theorem square_extent_counterexample :
    ∃ p', Pipeline.new.set_optimal_local_size_xyz ⟨100, 128, 64, 1024, true, true⟩ 7 7 (-1)
        = some p' ∧
      p'.local_size = (3, 4, 64) ∧ p'.local_size_x ≠ p'.local_size_y :=
  ⟨{ Pipeline.new with local_size_x := 3, local_size_y := 4, local_size_z := 64 },
    by decide!, by decide!, by decide!⟩

/-- C7, amended. For device limits with `max_workgroup_size[2] ≥ 1` and integers
`w == h`, `set_optimal_local_size_xyz(w, h, -1)` completes with
`local_size_x == local_size_y` when the equal extents are not positive, and also for
positive equal extents when the x and y limits give the same preferred start,
`min(128, max_x) == min(128, max_y)`, and the budget is not zero,
`min(128, max_z) ≤ max_workgroup_invocations`. -/
theorem square_extent_symmetric (info : GpuInfo) (p : Pipeline) (w h : Int) (hwh : w = h)
    (hz : 1 ≤ info.max_workgroup_size_z)
    (hcase : w ≤ 0 ∨
      (min 128 info.max_workgroup_size_x = min 128 info.max_workgroup_size_y ∧
        min 128 info.max_workgroup_size_z ≤ info.max_workgroup_invocations)) :
    ∃ p', p.set_optimal_local_size_xyz info w h (-1) = some p' ∧
      p'.local_size_x = p'.local_size_y := by
  subst hwh
  have hlz := optimal_local_size_z_pos info (-1) hz
  by_cases hw : w ≤ 0
  · obtain ⟨p', h1, h2, h3⟩ :=
      set_optimal_symmetric_nonpos info p w w (-1) hlz (Or.inl rfl) hw hw
    exact ⟨p', h1, by rw [h2, h3]⟩
  · obtain ⟨hcap, hinv⟩ := hcase.resolve_left hw
    have hlzv : optimal_local_size_z info (-1) = min 128 info.max_workgroup_size_z := by
      unfold optimal_local_size_z; rw [if_neg (by decide)]
    have hB : 1 ≤ info.max_workgroup_invocations / optimal_local_size_z info (-1) :=
      (Nat.one_le_div_iff (by omega)).mpr (by rw [hlzv]; exact hinv)
    obtain ⟨p', h1, h2, h3⟩ :=
      set_optimal_both_positive info p w w (-1) hlz (by omega) (by omega)
    refine ⟨p', h1, ?_⟩
    rw [h2, h3, (local_size_xy_aspect_square _ hB w (by omega)).1, hcap]

/-- C7, amended, at concrete inputs: `w = h = 224` with the limits `1024` and
`(1024, 1024, 64)`. -/
theorem square_extent_symmetric_witness :
    ∃ p', Pipeline.new.set_optimal_local_size_xyz ⟨1024, 1024, 64, 1024, true, true⟩ 224 224 (-1)
        = some p' ∧
      p'.local_size_x = p'.local_size_y :=
  square_extent_symmetric ⟨1024, 1024, 64, 1024, true, true⟩ Pipeline.new 224 224 rfl
    (by decide) (Or.inr ⟨by decide, by decide⟩)

/-- C8. For device limits with `max_workgroup_size[2] ≥ 1` (in particular for all positive
limits) `set_optimal_local_size_xyz(-1, -1, -1)` completes with
`local_size_x == local_size_y` and `local_size_z == min(128, max_workgroup_size[2])`. -/
theorem all_unknown_extents (info : GpuInfo) (p : Pipeline)
    (hz : 1 ≤ info.max_workgroup_size_z) :
    ∃ p', p.set_optimal_local_size_xyz info (-1) (-1) (-1) = some p' ∧
      p'.local_size_x = p'.local_size_y ∧
      p'.local_size_z = min 128 info.max_workgroup_size_z := by
  have hlz := optimal_local_size_z_pos info (-1) hz
  obtain ⟨p', h1, h2, h3⟩ :=
    set_optimal_symmetric_nonpos info p (-1) (-1) (-1) hlz (Or.inl rfl) (by decide) (by decide)
  refine ⟨p', h1, by rw [h2, h3], ?_⟩
  rw [set_optimal_local_size_z info p p' _ _ _ h1]
  unfold optimal_local_size_z
  rw [if_neg (by decide)]

/-- C8 at concrete limits: `1024` and `(1024, 1024, 64)` give `(4, 4, 64)`. -/
theorem all_unknown_extents_witness :
    (∃ p', Pipeline.new.set_optimal_local_size_xyz ⟨1024, 1024, 64, 1024, true, true⟩
          (-1) (-1) (-1) = some p' ∧
        p'.local_size_x = p'.local_size_y ∧ p'.local_size_z = min 128 64) ∧
      (Pipeline.new.set_optimal_local_size_xyz ⟨1024, 1024, 64, 1024, true, true⟩
          (-1) (-1) (-1)).map Pipeline.local_size = some (4, 4, 64) :=
  ⟨all_unknown_extents ⟨1024, 1024, 64, 1024, true, true⟩ Pipeline.new (by decide), by decide!⟩

/-- C9, as stated, fails: with the positive limits `max_workgroup_size = (1, 1024, 64)` and
`max_workgroup_invocations = 1024` the call `(100, 50, 8)` leaves `(1, 8, 8)`, so
`local_size_y ≤ local_size_x` does not hold. -/
theorem aspect_100_50_8_counterexample :
    ∃ p', Pipeline.new.set_optimal_local_size_xyz ⟨1, 1024, 64, 1024, true, true⟩ 100 50 8
        = some p' ∧
      p'.local_size = (1, 8, 8) ∧ ¬ p'.local_size_y ≤ p'.local_size_x :=
  ⟨{ Pipeline.new with local_size_x := 1, local_size_y := 8, local_size_z := 8 },
    by decide!, by decide!, by decide!⟩

/-- C9, amended. For device limits with `max_workgroup_size[0] ≥ 128`,
`max_workgroup_size[1] ≥ 128`, `max_workgroup_size[2] ≥ 1` and
`max_workgroup_invocations ≥ min(8, max_workgroup_size[2])`, the call
`set_optimal_local_size_xyz(100, 50, 8)` completes with
`local_size_y ≤ local_size_x ≤ 2 * local_size_y` (so also `local_size_x ≤ 4 * local_size_y`).
With `max_workgroup_invocations = 1024` and `max_workgroup_size = (1024, 1024, 64)` the
result is `(16, 8, 8)`. -/
theorem aspect_100_50_8_ratio (info : GpuInfo) (p : Pipeline)
    (hx : 128 ≤ info.max_workgroup_size_x) (hy : 128 ≤ info.max_workgroup_size_y)
    (hz : 1 ≤ info.max_workgroup_size_z)
    (hi : min 8 info.max_workgroup_size_z ≤ info.max_workgroup_invocations) :
    (∃ p', p.set_optimal_local_size_xyz info 100 50 8 = some p' ∧
        p'.local_size_y ≤ p'.local_size_x ∧ p'.local_size_x ≤ 2 * p'.local_size_y ∧
        p'.local_size_x ≤ 4 * p'.local_size_y) ∧
      (Pipeline.new.set_optimal_local_size_xyz ⟨1024, 1024, 64, 1024, true, true⟩ 100 50 8).map
          Pipeline.local_size = some (16, 8, 8) := by
  refine ⟨?_, by decide!⟩
  have hlz := optimal_local_size_z_pos info 8 hz
  have hlz8 : optimal_local_size_z info 8 ≤ 8 := by
    unfold optimal_local_size_z
    rw [if_pos (by decide)]
    exact halve_while_above_le_bound _ _
  have hlzz := optimal_local_size_z_le info 8
  have hB : 1 ≤ info.max_workgroup_invocations / optimal_local_size_z info 8 :=
    (Nat.one_le_div_iff (by omega)).mpr (by omega)
  obtain ⟨p', h1, h2, h3⟩ :=
    set_optimal_both_positive info p 100 50 8 hlz (by decide) (by decide)
  obtain ⟨a1, a2, a3, a4⟩ := local_size_xy_aspect_100_50 _ hB
  refine ⟨p', h1, ?_⟩
  rw [h2, h3, min_eq_left hx, min_eq_left hy]
  generalize (local_size_xy_aspect
    (info.max_workgroup_invocations / optimal_local_size_z info 8) 100 50).1 = a at a1 a2 a3 a4 ⊢
  generalize (local_size_xy_aspect
    (info.max_workgroup_invocations / optimal_local_size_z info 8) 100 50).2 = b at a1 a2 a3 a4 ⊢
  have hs := snap_128_ratio a b a1 a2 a3 a4
  omega

/-- C9, amended, at the limits of the specification's example. -/
theorem aspect_100_50_8_ratio_witness :
    ∃ p', Pipeline.new.set_optimal_local_size_xyz ⟨1024, 1024, 64, 1024, true, true⟩ 100 50 8
        = some p' ∧
      p'.local_size_y ≤ p'.local_size_x ∧ p'.local_size_x ≤ 2 * p'.local_size_y ∧
      p'.local_size_x ≤ 4 * p'.local_size_y :=
  (aspect_100_50_8_ratio ⟨1024, 1024, 64, 1024, true, true⟩ Pipeline.new
    (by decide) (by decide) (by decide) (by decide)).1

/-- When a branch of the function applies, the sizes left do not depend on the object before the call:
when `h == w`, or both extents are negative, or one of them is positive, two handles end
with the same local size. -/
theorem set_optimal_local_size_of_shape (info : GpuInfo) (p q : Pipeline) (w h c : Int)
    (hcase : h = w ∨ (h < 0 ∧ w < 0) ∨ 0 < h ∨ 0 < w) :
    (p.set_optimal_local_size_xyz info w h c).map Pipeline.local_size =
      (q.set_optimal_local_size_xyz info w h c).map Pipeline.local_size := by
  unfold Pipeline.set_optimal_local_size_xyz
  simp only
  split_ifs <;> first | rfl | (exfalso; omega)

/-- C10 (the code is not a function of shape and limits alone). For `w = 0`, `h = -1` none
of the four tests `h == w || (h < 0 && w < 0)`, `h > 0 && w > 0`, `h > 0`, `w > 0` holds,
so `local_size_x` and `local_size_y` keep what they held before the call: a fresh handle
ends with `(1, 1, 64)`, a handle that went through `set_local_size_xyz(8, 8, 1)` with
`(8, 8, 64)`, under the same limits. -/
theorem set_optimal_local_size_xyz_keeps_previous_xy :
    (Pipeline.new.set_optimal_local_size_xyz ⟨1024, 1024, 64, 1024, true, true⟩ 0 (-1) (-1)).map
        Pipeline.local_size = some (1, 1, 64) ∧
      ((Pipeline.new.set_local_size_xyz 8 8 1).set_optimal_local_size_xyz
          ⟨1024, 1024, 64, 1024, true, true⟩ 0 (-1) (-1)).map Pipeline.local_size
        = some (8, 8, 64) := by
  constructor <;> decide!

/-! ## Specialization constants -/

theorem drop_set_zero {α : Type} (l : List α) (n : Nat) (a : α) (h : n < l.length) :
    (l.drop n).set 0 a = a :: l.drop (n + 1) := by
  rw [List.drop_eq_getElem_cons h]
  rfl

/-- A loop that writes `f i` into slot `i` for `i < n` turns the first `n` slots into
`f 0, ..., f (n-1)` and leaves the rest. -/
theorem foldl_set_range {α : Type} (f : Nat → α) :
    ∀ (n : Nat) (l : List α), n ≤ l.length →
      (List.range n).foldl (fun entries i => entries.set i (f i)) l
        = (List.range n).map f ++ l.drop n := by
  intro n
  induction n with
  | zero => intro l _; simp
  | succ n ih =>
    intro l hl
    have hlen : ((List.range n).map f).length = n := by simp
    rw [List.range_succ, List.foldl_append, List.foldl_cons, List.foldl_nil, ih l (by omega),
      List.set_append_right _ _ (by omega), hlen, Nat.sub_self, List.map_append,
      List.append_assoc, drop_set_zero l n (f n) (by omega)]
    rfl

/-- Writing the three slots behind a prefix of length `K`. -/
theorem set_three_append {α : Type} (A : List α) (K : Nat) (hA : A.length = K)
    (d0 d1 d2 e0 e1 e2 : α) :
    (((A ++ [d0, d1, d2]).set (K + 0) e0).set (K + 1) e1).set (K + 2) e2 = A ++ [e0, e1, e2] := by
  subst hA
  induction A with
  | nil => rfl
  | cons a A ih => simp

/-- Closed form of the entry array: the caller entries `0 .. K-1` followed by the three
local-size entries. -/
theorem specializationMapEntries_eq (K : Nat) :
    specializationMapEntries K =
      (List.range K).map (fun i => { constantID := i, offset := i * 4 % 2 ^ 32, size := 4 }) ++
        [{ constantID := 233, offset := (K + 0) * 4 % 2 ^ 32, size := 4 },
          { constantID := 234, offset := (K + 1) * 4 % 2 ^ 32, size := 4 },
          { constantID := 235, offset := (K + 2) * 4 % 2 ^ 32, size := 4 }] := by
  unfold specializationMapEntries sizeof_vk_specialization_type
  simp only
  rw [foldl_set_range _ K _ (by simp)]
  have hdrop : (List.replicate (K + 3)
      ({ constantID := 0, offset := 0, size := 0 } : VkSpecializationMapEntry)).drop K
      = [⟨0, 0, 0⟩, ⟨0, 0, 0⟩, ⟨0, 0, 0⟩] := by
    rw [List.drop_replicate]
    have : K + 3 - K = 3 := by omega
    rw [this]; rfl
  rw [hdrop]
  exact set_three_append _ K (by simp) _ _ _ _ _ _

/-- Closed form of the data buffer: the caller words followed by the local size. -/
theorem specialization_data_eq (p : Pipeline) (specializations : List Nat) :
    p.specialization_data specializations =
      specializations ++ [p.local_size_x, p.local_size_y, p.local_size_z] := by
  unfold Pipeline.specialization_data
  exact set_three_append _ _ rfl _ _ _ _ _ _

theorem specializationMapEntries_caller (K i : Nat) (hi : i < K) :
    (specializationMapEntries K)[i]? =
      some { constantID := i, offset := i * 4 % 2 ^ 32, size := 4 } := by
  rw [specializationMapEntries_eq, List.getElem?_append_left (by simp [hi])]
  simp [hi]

theorem specializationMapEntries_local (K j : Nat) :
    (specializationMapEntries K)[K + j]? =
      [({ constantID := 233, offset := (K + 0) * 4 % 2 ^ 32, size := 4 } :
          VkSpecializationMapEntry),
        { constantID := 234, offset := (K + 1) * 4 % 2 ^ 32, size := 4 },
        { constantID := 235, offset := (K + 2) * 4 % 2 ^ 32, size := 4 }][j]? := by
  rw [specializationMapEntries_eq, List.getElem?_append_right (by simp)]
  simp

theorem specializationInfo_pMapEntries (p : Pipeline) (specializations : List Nat) :
    (p.specializationInfo specializations).pMapEntries =
      specializationMapEntries specializations.length := rfl

/-- C3, as stated, fails: with `K = 2^30 - 2` caller words the last map entry, number
`K + 2 = 2^30`, has the byte offset `0`: the product `(K + 2) * 4 = 2^32` does not fit
the `uint32_t` field `offset`. The claim requires the offset `4 * 2^30 = 4294967296`. -/
theorem specialization_offset_counterexample :
    ((Pipeline.new.specializationInfo (List.replicate 1073741822 0)).pMapEntries[1073741824]?).map
        VkSpecializationMapEntry.offset = some 0 ∧
      (0 : Nat) ≠ 4 * 1073741824 := by
  have hlen : (List.replicate 1073741822 0 : List Nat).length = 1073741822 :=
    List.length_replicate _ _
  have h := specializationMapEntries_local 1073741822 2
  refine ⟨?_, by norm_num⟩
  rw [specializationInfo_pMapEntries, hlen]
  have e : (1073741824 : Nat) = 1073741822 + 2 := by norm_num
  rw [e, h]
  rfl

/-- C3, amended. For every list of `K` caller specialization words with `K + 3 ≤ 2^30`
and every local size, the `VkSpecializationInfo` that `Pipeline::create_pipeline` hands to
`vkCreateComputePipelines` has `K + 3` map entries; entry `i` has offset `4 * i` and size
`4`; entries `0 .. K-1` carry the constant IDs `0 .. K-1`; the last three carry `233`,
`234`, `235`; the data are the `K` caller words in their order followed by
`local_size_x`, `local_size_y`, `local_size_z`; and `dataSize` is `(K + 3) * 4`. -/
theorem specialization_info_layout (p : Pipeline) (specializations : List Nat)
    (hK : specializations.length + 3 ≤ 2 ^ 30) :
    (p.specializationInfo specializations).mapEntryCount = specializations.length + 3 ∧
      (p.specializationInfo specializations).pMapEntries.length = specializations.length + 3 ∧
      (∀ i, i < specializations.length + 3 →
        ∃ e, (p.specializationInfo specializations).pMapEntries[i]? = some e ∧
          e.offset = 4 * i ∧ e.size = 4) ∧
      (∀ i, i < specializations.length →
        ∃ e, (p.specializationInfo specializations).pMapEntries[i]? = some e ∧
          e.constantID = i) ∧
      ((p.specializationInfo specializations).pMapEntries.drop specializations.length).map
          VkSpecializationMapEntry.constantID = [233, 234, 235] ∧
      (p.specializationInfo specializations).pData =
        specializations ++ [p.local_size_x, p.local_size_y, p.local_size_z] ∧
      (p.specializationInfo specializations).pData.length = specializations.length + 3 ∧
      (p.specializationInfo specializations).dataSize = (specializations.length + 3) * 4 ∧
      (∀ (drv : Driver) (shader_module : Nat) (entry_name : String),
        ∃ request,
          (p.create_pipeline drv shader_module entry_name specializations).calls =
            [DriverCall.vkCreateComputePipelines request] ∧
          request.pSpecializationInfo = p.specializationInfo specializations) := by
  have hlen : (specializationMapEntries specializations.length).length
      = specializations.length + 3 := by
    rw [specializationMapEntries_eq]; simp
  have hdata : (p.specialization_data specializations).length = specializations.length + 3 := by
    rw [specialization_data_eq]; simp
  have h30 : (2 : Nat) ^ 30 = 1073741824 := by norm_num
  have h32 : (2 : Nat) ^ 32 = 4294967296 := by norm_num
  rw [h30] at hK
  refine ⟨hlen, hlen, ?_, ?_, ?_, specialization_data_eq p specializations, hdata, ?_, ?_⟩
  · intro i hi
    show ∃ e, (specializationMapEntries specializations.length)[i]? = some e ∧ _
    by_cases h1 : i < specializations.length
    · exact ⟨_, specializationMapEntries_caller _ i h1,
        by show i * 4 % 2 ^ 32 = _; rw [h32]; omega, rfl⟩
    · obtain ⟨j, rfl⟩ : ∃ j, i = specializations.length + j := ⟨i - specializations.length, by omega⟩
      rw [specializationMapEntries_local]
      have h2 : j = 0 ∨ j = 1 ∨ j = 2 := by omega
      rcases h2 with h2 | h2 | h2 <;> subst h2 <;>
        exact ⟨_, rfl, by show _ * 4 % 2 ^ 32 = _; rw [h32]; omega, rfl⟩
  · intro i hi
    exact ⟨_, specializationMapEntries_caller _ i hi, rfl⟩
  · show ((specializationMapEntries specializations.length).drop specializations.length).map _ = _
    rw [specializationMapEntries_eq, List.drop_append_of_le_length (by simp),
      List.drop_of_length_le (by simp)]
    rfl
  · show (p.specialization_data specializations).length * sizeof_vk_specialization_type = _
    rw [hdata]; rfl
  · intro drv shader_module entry_name
    exact ⟨_, rfl, rfl⟩

/-- C3, amended, at `K = 2` with the local size `(16, 8, 4)`: five entries with offsets
`0, 4, 8, 12, 16`, the data `7, 9, 16, 8, 4` and `dataSize = 20`. -/
theorem specialization_info_layout_witness :
    ((Pipeline.new.set_local_size_xyz 16 8 4).specializationInfo [7, 9]).mapEntryCount = 2 + 3 ∧
      ((Pipeline.new.set_local_size_xyz 16 8 4).specializationInfo [7, 9]).dataSize
        = (2 + 3) * 4 ∧
      ((Pipeline.new.set_local_size_xyz 16 8 4).specializationInfo [7, 9]).pData
        = [7, 9, 16, 8, 4] ∧
      ((Pipeline.new.set_local_size_xyz 16 8 4).specializationInfo [7, 9]).pMapEntries
        = [⟨0, 0, 4⟩, ⟨1, 4, 4⟩, ⟨233, 8, 4⟩, ⟨234, 12, 4⟩, ⟨235, 16, 4⟩] :=
  have h := specialization_info_layout (Pipeline.new.set_local_size_xyz 16 8 4) [7, 9]
    (by decide)
  ⟨h.1, h.2.2.2.2.2.2.2.1, h.2.2.2.2.2.1, by decide⟩

/-! ## Construction and teardown -/

/-- `Pipeline::create` ends in `return 0` whatever the driver answered. -/
theorem create_ret (info : GpuInfo) (drv : Driver) (p : Pipeline) (shader_module : Nat)
    (entry_name : String) (specializations : List Nat) (binding_count : Nat)
    (push_constant_count : Int) :
    (p.create info drv shader_module entry_name specializations binding_count
      push_constant_count).ret = 0 := by
  unfold Pipeline.create
  simp only
  split <;> rfl

/-- C4 (the code does not do what the claim says). The driver refuses the descriptor-set
layout (`VK_ERROR_OUT_OF_HOST_MEMORY = -1`) and everything after it (`-3`): the helper
`create_descriptorset_layout` returns `-1`, and yet `Pipeline::create` goes on to call
`vkCreatePipelineLayout`, `vkCreateComputePipelines` and
`vkCreateDescriptorUpdateTemplateKHR` and returns `0`. -/
theorem create_returns_zero_after_failed_layout :
    (Pipeline.new.create_descriptorset_layout ⟨1024, 1024, 64, 1024, true, true⟩
          ⟨5, ⟨-1, 0⟩, ⟨-3, 0⟩, ⟨-3, 0⟩, ⟨-3, 0⟩⟩ 1).ret = -1 ∧
      (Pipeline.new.create ⟨1024, 1024, 64, 1024, true, true⟩
          ⟨5, ⟨-1, 0⟩, ⟨-3, 0⟩, ⟨-3, 0⟩, ⟨-3, 0⟩⟩ 7 "main" [] 1 0).ret = 0 ∧
      (Pipeline.new.create ⟨1024, 1024, 64, 1024, true, true⟩
          ⟨5, ⟨-1, 0⟩, ⟨-3, 0⟩, ⟨-3, 0⟩, ⟨-3, 0⟩⟩ 7 "main" [] 1 0).calls.length = 4 ∧
      (∃ r1 r2 r3 r4,
        (Pipeline.new.create ⟨1024, 1024, 64, 1024, true, true⟩
            ⟨5, ⟨-1, 0⟩, ⟨-3, 0⟩, ⟨-3, 0⟩, ⟨-3, 0⟩⟩ 7 "main" [] 1 0).calls =
          [DriverCall.vkCreateDescriptorSetLayout r1, DriverCall.vkCreatePipelineLayout r2,
            DriverCall.vkCreateComputePipelines r3,
            DriverCall.vkCreateDescriptorUpdateTemplateKHR r4]) :=
  ⟨by decide, by decide, by decide, ⟨_, _, _, _, rfl⟩⟩

theorem destroy_fst (info : GpuInfo) (p : Pipeline) :
    (p.destroy info).1 =
      { p with
        descriptor_update_template :=
          if info.support_VK_KHR_descriptor_update_template then 0
          else p.descriptor_update_template
        pipeline := 0
        pipeline_layout := 0
        descriptorset_layout := 0
        local_shader_module := 0 } := by
  obtain ⟨m, d, l, q, t, x, y, z⟩ := p
  unfold Pipeline.destroy
  by_cases ht : info.support_VK_KHR_descriptor_update_template = true <;>
    by_cases h1 : t = 0 <;> by_cases h2 : q = 0 <;> by_cases h3 : l = 0 <;>
    by_cases h4 : d = 0 <;> by_cases h5 : m = 0 <;> simp [ht, h1, h2, h3, h4, h5]

theorem destroy_snd (info : GpuInfo) (p : Pipeline) :
    (p.destroy info).2 =
      (if info.support_VK_KHR_descriptor_update_template ∧ p.descriptor_update_template ≠ 0 then
          [DriverCall.vkDestroyDescriptorUpdateTemplateKHR p.descriptor_update_template]
        else []) ++
        (if p.pipeline ≠ 0 then [DriverCall.vkDestroyPipeline p.pipeline] else []) ++
        (if p.pipeline_layout ≠ 0 then [DriverCall.vkDestroyPipelineLayout p.pipeline_layout]
          else []) ++
        (if p.descriptorset_layout ≠ 0 then
          [DriverCall.vkDestroyDescriptorSetLayout p.descriptorset_layout]
          else []) ++
        (if p.local_shader_module ≠ 0 then [DriverCall.vkDestroyShaderModule p.local_shader_module]
          else []) := by
  obtain ⟨m, d, l, q, t, x, y, z⟩ := p
  unfold Pipeline.destroy
  by_cases ht : info.support_VK_KHR_descriptor_update_template = true <;>
    by_cases h1 : t = 0 <;> by_cases h2 : q = 0 <;> by_cases h3 : l = 0 <;>
    by_cases h4 : d = 0 <;> by_cases h5 : m = 0 <;> simp [ht, h1, h2, h3, h4, h5]

/-- A second `Pipeline::destroy` changes nothing and calls nothing. -/
theorem destroy_destroy (info : GpuInfo) (p : Pipeline) :
    (p.destroy info).1.destroy info = ((p.destroy info).1, []) := by
  apply Prod.ext
  · rw [destroy_fst, destroy_fst]
    cases info.support_VK_KHR_descriptor_update_template <;> simp
  · rw [destroy_snd, destroy_fst]
    cases info.support_VK_KHR_descriptor_update_template <;> simp

/-- C5. For every handle state of a `Pipeline` (each of the five handles empty or not) and
either value of the update-template support flag, a second `destroy` leaves the state of
the first and issues no driver call; the same holds for
`ImportAndroidHardwareBufferPipeline::destroy` with its sampler and conversion object. -/
theorem destroy_idempotent (info : GpuInfo) :
    (∀ p : Pipeline, (p.destroy info).1.destroy info = ((p.destroy info).1, [])) ∧
      (∀ p : ImportAndroidHardwareBufferPipeline,
        (p.destroy info).1.destroy info = ((p.destroy info).1, [])) := by
  refine ⟨destroy_destroy info, ?_⟩
  intro p
  obtain ⟨base, conv, samp⟩ := p
  have h := destroy_destroy info base
  unfold ImportAndroidHardwareBufferPipeline.destroy
  by_cases h1 : samp = 0 <;> by_cases h2 : conv = 0 <;> simp [h1, h2, h]

/-- `Pipeline::create(shader_module, ...)` never writes `local_shader_module`. -/
theorem create_local_shader_module (info : GpuInfo) (drv : Driver) (p : Pipeline)
    (shader_module : Nat) (entry_name : String) (specializations : List Nat)
    (binding_count : Nat) (push_constant_count : Int) :
    (p.create info drv shader_module entry_name specializations binding_count
      push_constant_count).self.local_shader_module = p.local_shader_module := by
  unfold Pipeline.create Pipeline.create_descriptor_update_template Pipeline.create_pipeline
    Pipeline.create_pipeline_layout Pipeline.create_descriptorset_layout
  simp only
  split_ifs <;> rfl

/-- The only shader module `Pipeline::destroy` releases is a non-empty
`local_shader_module`. -/
theorem releasedShaderModules_destroy (info : GpuInfo) (p : Pipeline) :
    releasedShaderModules (p.destroy info).2 =
      if p.local_shader_module = 0 then [] else [p.local_shader_module] := by
  rw [destroy_snd]
  unfold releasedShaderModules
  simp only [List.filterMap_append]
  by_cases ht : info.support_VK_KHR_descriptor_update_template = true <;>
    by_cases h1 : p.descriptor_update_template = 0 <;> by_cases h2 : p.pipeline = 0 <;>
    by_cases h3 : p.pipeline_layout = 0 <;> by_cases h4 : p.descriptorset_layout = 0 <;>
    by_cases h5 : p.local_shader_module = 0 <;> simp [ht, h1, h2, h3, h4, h5]

/-- C6. Starting from a freshly constructed `Pipeline`: after `create(shader_module, ...)`
with any caller module `local_shader_module` is still empty and a following `destroy`
releases no shader module; after `create(spv_data, ...)` the module returned by
`compile_shader_module` is stored in `local_shader_module` and a following `destroy`
releases exactly that module (nothing when the compiler returned the null handle). -/
theorem shader_module_ownership (info : GpuInfo) (drv : Driver) (shader_module : Nat)
    (entry_name : String) (specializations : List Nat) (binding_count : Nat)
    (push_constant_count : Int) :
    (Pipeline.new.create info drv shader_module entry_name specializations binding_count
          push_constant_count).self.local_shader_module = 0 ∧
      releasedShaderModules
          ((Pipeline.new.create info drv shader_module entry_name specializations binding_count
            push_constant_count).self.destroy info).2 = [] ∧
      (Pipeline.new.create_spv info drv entry_name specializations binding_count
          push_constant_count).self.local_shader_module = drv.compile_shader_module ∧
      releasedShaderModules
          ((Pipeline.new.create_spv info drv entry_name specializations binding_count
            push_constant_count).self.destroy info).2 =
        (if drv.compile_shader_module = 0 then [] else [drv.compile_shader_module]) := by
  refine ⟨?_, ?_, ?_, ?_⟩
  · rw [create_local_shader_module]; rfl
  · rw [releasedShaderModules_destroy, create_local_shader_module]; rfl
  · unfold Pipeline.create_spv
    rw [create_local_shader_module]
  · unfold Pipeline.create_spv
    rw [releasedShaderModules_destroy, create_local_shader_module]

/-! ## Specialization constant IDs -/

/-- The constant IDs of the entry array, in order: `0 .. K-1`, then `233, 234, 235`. -/
theorem specializationMapEntries_ids (K : Nat) :
    (specializationMapEntries K).map VkSpecializationMapEntry.constantID =
      List.range K ++ [233, 234, 235] := by
  rw [specializationMapEntries_eq, List.map_append, List.map_map]
  congr 1
  exact List.map_id' _

/-- C11, as stated, fails: with `K = 234` caller constants the caller entry number `233`
carries the ID `233`, which is also the ID of the first trailing entry (number `234`), so
the IDs of the `237` entries are not pairwise distinct. -/
theorem specialization_ids_counterexample :
    ((Pipeline.new.specializationInfo (List.replicate 234 0)).pMapEntries[233]?).map
        VkSpecializationMapEntry.constantID = some 233 ∧
      ((Pipeline.new.specializationInfo (List.replicate 234 0)).pMapEntries[234]?).map
        VkSpecializationMapEntry.constantID = some 233 ∧
      ¬ ((Pipeline.new.specializationInfo (List.replicate 234 0)).pMapEntries.map
        VkSpecializationMapEntry.constantID).Nodup := by
  have hlen : (List.replicate 234 0 : List Nat).length = 234 := List.length_replicate _ _
  refine ⟨?_, ?_, ?_⟩
  · rw [specializationInfo_pMapEntries, hlen,
      specializationMapEntries_caller 234 233 (by norm_num)]
    rfl
  · rw [specializationInfo_pMapEntries, hlen, specializationMapEntries_local 234 0]
    rfl
  · rw [specializationInfo_pMapEntries, hlen, specializationMapEntries_ids]
    intro hnd
    have hdis := (List.nodup_append.mp hnd).2.2
    exact hdis (List.mem_range.mpr (by norm_num : 233 < 234)) (by simp)

/-- C11, amended. For every list of `K ≤ 233` caller specialization words the constant IDs
of the `K + 3` map entries built by `Pipeline::create_pipeline` are `0, ..., K-1, 233,
234, 235`, pairwise distinct: no trailing ID equals a caller ID. -/
theorem specialization_ids_distinct (p : Pipeline) (specializations : List Nat)
    (hK : specializations.length ≤ 233) :
    (p.specializationInfo specializations).pMapEntries.map VkSpecializationMapEntry.constantID =
        List.range specializations.length ++ [233, 234, 235] ∧
      ((p.specializationInfo specializations).pMapEntries.map
        VkSpecializationMapEntry.constantID).Nodup ∧
      (∀ i, i < specializations.length → i ≠ 233 ∧ i ≠ 234 ∧ i ≠ 235) := by
  have hids : (p.specializationInfo specializations).pMapEntries.map
      VkSpecializationMapEntry.constantID = List.range specializations.length ++ [233, 234, 235] :=
    specializationMapEntries_ids specializations.length
  refine ⟨hids, ?_, fun i hi => ⟨by omega, by omega, by omega⟩⟩
  rw [hids, List.nodup_append]
  refine ⟨List.nodup_range _, by decide, ?_⟩
  intro a ha hb
  have h1 := List.mem_range.mp ha
  simp only [List.mem_cons, List.mem_singleton, List.not_mem_nil, or_false] at hb
  omega

/-- C11, amended, at `K = 2`: the IDs are `0, 1, 233, 234, 235`. -/
theorem specialization_ids_distinct_witness :
    (Pipeline.new.specializationInfo [7, 9]).pMapEntries.map VkSpecializationMapEntry.constantID =
        [0, 1, 233, 234, 235] ∧
      ((Pipeline.new.specializationInfo [7, 9]).pMapEntries.map
        VkSpecializationMapEntry.constantID).Nodup :=
  have h := specialization_ids_distinct Pipeline.new [7, 9] (by decide)
  ⟨h.1, h.2.1⟩

/-! ## Layout requests -/

/-- C12, as stated, fails: with `push_constant_count = 2^30`, after a successful
`create_descriptorset_layout(2)`, the request of `create_pipeline_layout` carries one
push-constant range whose size is `0`: the product `4 * 2^30 = 2^32` does not fit the
`uint32_t` field `size`. The claim requires the size `4 * P = 4294967296`. -/
theorem push_constant_size_counterexample :
    ((Pipeline.new.create_descriptorset_layout ⟨1024, 1024, 64, 1024, true, true⟩
          ⟨5, ⟨0, 11⟩, ⟨0, 12⟩, ⟨0, 13⟩, ⟨0, 14⟩⟩ 2).self.pipelineLayoutCreateInfo
        1073741824).pPushConstantRanges
        = [{ stageFlags := VK_SHADER_STAGE_COMPUTE_BIT, offset := 0, size := 0 }] ∧
      ((0 : ℕ) : ℤ) ≠ 4 * 1073741824 := by
  refine ⟨?_, by norm_num⟩
  unfold Pipeline.pipelineLayoutCreateInfo
  simp only
  rw [if_pos (by norm_num)]
  norm_num

/-- C12, amended. When `vkCreateDescriptorSetLayout` succeeds (it returns `VK_SUCCESS` and
stores a non-null handle), for every binding count `N` and every `push_constant_count`
`P`: after `create_descriptorset_layout(N)` the descriptor-set layout is empty exactly
when `N == 0`; the request that `create_pipeline_layout(P)` then passes to
`vkCreatePipelineLayout` references that one layout when it is present and none otherwise
(for any object: one layout when `descriptorset_layout` is not empty, none otherwise), and
it carries one push-constant range with compute stage, offset `0` and size `4 * P` reduced
modulo `2^32`, which is `4 * P` when `P < 2^30`, when `P > 0`, and no range otherwise. For
`(N, P) = (0, 0)`: empty layout, no set layout, no range. -/
theorem layout_requests (info : GpuInfo) (drv : Driver) (p : Pipeline) (N : Nat) (P : Int)
    (hresult : drv.vkCreateDescriptorSetLayout.result = VK_SUCCESS)
    (hhandle : drv.vkCreateDescriptorSetLayout.handle ≠ 0) :
    ((p.create_descriptorset_layout info drv N).self.descriptorset_layout = 0 ↔ N = 0) ∧
      (p.create_descriptorset_layout info drv N).ret = 0 ∧
      ((p.create_descriptorset_layout info drv N).self.create_pipeline_layout drv P).calls =
        [DriverCall.vkCreatePipelineLayout
          ((p.create_descriptorset_layout info drv N).self.pipelineLayoutCreateInfo P)] ∧
      ((p.create_descriptorset_layout info drv N).self.pipelineLayoutCreateInfo P).setLayoutCount =
        (if N = 0 then 0 else 1) ∧
      ((p.create_descriptorset_layout info drv N).self.pipelineLayoutCreateInfo P).pSetLayouts =
        (if N = 0 then [] else [drv.vkCreateDescriptorSetLayout.handle]) ∧
      (∀ q : Pipeline,
        (q.pipelineLayoutCreateInfo P).setLayoutCount = (if q.descriptorset_layout = 0 then 0 else 1) ∧
          (q.pipelineLayoutCreateInfo P).pSetLayouts =
            (if q.descriptorset_layout = 0 then [] else [q.descriptorset_layout])) ∧
      (∀ q : Pipeline, 0 < P →
        (q.pipelineLayoutCreateInfo P).pushConstantRangeCount = 1 ∧
          ∃ range, (q.pipelineLayoutCreateInfo P).pPushConstantRanges = [range] ∧
            range.offset = 0 ∧ ((range.size : ℕ) : ℤ) = 4 * P % 2 ^ 32 ∧
            (P < 2 ^ 30 → ((range.size : ℕ) : ℤ) = 4 * P) ∧
            range.stageFlags = VK_SHADER_STAGE_COMPUTE_BIT) ∧
      (∀ q : Pipeline, P ≤ 0 →
        (q.pipelineLayoutCreateInfo P).pushConstantRangeCount = 0 ∧
          (q.pipelineLayoutCreateInfo P).pPushConstantRanges = []) ∧
      ((p.create_descriptorset_layout info drv 0).self.descriptorset_layout = 0 ∧
        ((p.create_descriptorset_layout info drv 0).self.pipelineLayoutCreateInfo 0).setLayoutCount
          = 0 ∧
        ((p.create_descriptorset_layout info drv 0).self.pipelineLayoutCreateInfo
          0).pushConstantRangeCount = 0 ∧
        ((p.create_descriptorset_layout info drv 0).self.pipelineLayoutCreateInfo
          0).pPushConstantRanges = []) := by
  have hq : ∀ q : Pipeline,
      (q.pipelineLayoutCreateInfo P).setLayoutCount = (if q.descriptorset_layout = 0 then 0 else 1) ∧
        (q.pipelineLayoutCreateInfo P).pSetLayouts =
          (if q.descriptorset_layout = 0 then [] else [q.descriptorset_layout]) := by
    intro q
    unfold Pipeline.pipelineLayoutCreateInfo
    by_cases h : q.descriptorset_layout = 0 <;> simp [h]
  have hl : (p.create_descriptorset_layout info drv N).self.descriptorset_layout =
      if N = 0 then 0 else drv.vkCreateDescriptorSetLayout.handle := by
    unfold Pipeline.create_descriptorset_layout
    by_cases h : N = 0 <;> simp [h]
  have hl0 : (p.create_descriptorset_layout info drv 0).self.descriptorset_layout = 0 := by
    unfold Pipeline.create_descriptorset_layout
    simp
  refine ⟨?_, ?_, rfl, ?_, ?_, hq, ?_, ?_, hl0, ?_, ?_, ?_⟩
  · rw [hl]
    by_cases h : N = 0 <;> simp [h, hhandle]
  · unfold Pipeline.create_descriptorset_layout
    by_cases h : N = 0 <;> simp [h, hresult]
  · rw [(hq _).1, hl]
    by_cases h : N = 0 <;> simp [h, hhandle]
  · rw [(hq _).2, hl]
    by_cases h : N = 0 <;> simp [h, hhandle]
  · intro q hP
    unfold Pipeline.pipelineLayoutCreateInfo
    simp only
    rw [if_pos hP, if_pos hP]
    have h30 : (2 : ℤ) ^ 30 = 1073741824 := by norm_num
    have h32 : (2 : ℤ) ^ 32 = 4294967296 := by norm_num
    refine ⟨rfl, _, rfl, rfl, ?_, ?_, rfl⟩
    · show (((4 * P % 2 ^ 32).toNat : ℕ) : ℤ) = 4 * P % 2 ^ 32
      rw [h32]; omega
    · intro hlt
      show (((4 * P % 2 ^ 32).toNat : ℕ) : ℤ) = 4 * P
      rw [h30] at hlt
      rw [h32]; omega
  · intro q hP
    unfold Pipeline.pipelineLayoutCreateInfo
    simp only
    rw [if_neg (not_lt.mpr hP), if_neg (not_lt.mpr hP)]
    exact ⟨rfl, rfl⟩
  · unfold Pipeline.pipelineLayoutCreateInfo
    simp [hl0]
  · unfold Pipeline.pipelineLayoutCreateInfo
    simp
  · unfold Pipeline.pipelineLayoutCreateInfo
    simp

/-- C12, amended, at a concrete driver (every creation succeeds with a non-null handle),
`N = 2` bindings and `P = 5` push constants: the layout handle `11` is stored and the
request references it and carries one range of `20` bytes. -/
theorem layout_requests_witness :
    (Pipeline.new.create_descriptorset_layout ⟨1024, 1024, 64, 1024, true, true⟩
          ⟨5, ⟨0, 11⟩, ⟨0, 12⟩, ⟨0, 13⟩, ⟨0, 14⟩⟩ 2).self.descriptorset_layout ≠ 0 ∧
      ((Pipeline.new.create_descriptorset_layout ⟨1024, 1024, 64, 1024, true, true⟩
          ⟨5, ⟨0, 11⟩, ⟨0, 12⟩, ⟨0, 13⟩, ⟨0, 14⟩⟩ 2).self.pipelineLayoutCreateInfo 5)
        = { flags := 0, setLayoutCount := 1, pSetLayouts := [11], pushConstantRangeCount := 1,
            pPushConstantRanges := [{ stageFlags := 32, offset := 0, size := 20 }] } :=
  have h := layout_requests ⟨1024, 1024, 64, 1024, true, true⟩
    ⟨5, ⟨0, 11⟩, ⟨0, 12⟩, ⟨0, 13⟩, ⟨0, 14⟩⟩ Pipeline.new 2 5 rfl (by decide)
  ⟨fun h0 => absurd (h.1.mp h0) (by decide), by decide⟩

/-! ## Output shape of the hardware-buffer import -/

/-- C13. For every buffer size reported to `ImportAndroidHardwareBufferPipeline::create`
(stored as `w`, `h`), whatever the target type, capabilities, options and the outcome of
the properties query: a rotation code below `5`, in particular `1, 2, 3, 4`, gives
`(outw, outh) = (w, h)`, and every other code, in particular `5, 6, 7, 8`, gives
`(outw, outh) = (h, w)`. -/
theorem rotation_output_size (fp16 : GpuInfoFp16) (opt : NcnnOption) (width height : Nat)
    (type_to : Int) (properties_result : Int) :
    (∀ r ∈ ([1, 2, 3, 4] : List Int),
      (ImportAndroidHardwareBufferPipeline.create fp16 opt width height type_to r
          properties_result).members.outw =
        (ImportAndroidHardwareBufferPipeline.create fp16 opt width height type_to r
          properties_result).members.w ∧
      (ImportAndroidHardwareBufferPipeline.create fp16 opt width height type_to r
          properties_result).members.outh =
        (ImportAndroidHardwareBufferPipeline.create fp16 opt width height type_to r
          properties_result).members.h) ∧
    (∀ r ∈ ([5, 6, 7, 8] : List Int),
      (ImportAndroidHardwareBufferPipeline.create fp16 opt width height type_to r
          properties_result).members.outw =
        (ImportAndroidHardwareBufferPipeline.create fp16 opt width height type_to r
          properties_result).members.h ∧
      (ImportAndroidHardwareBufferPipeline.create fp16 opt width height type_to r
          properties_result).members.outh =
        (ImportAndroidHardwareBufferPipeline.create fp16 opt width height type_to r
          properties_result).members.w) ∧
    (∀ r : Int,
      (ImportAndroidHardwareBufferPipeline.create fp16 opt width height type_to r
          properties_result).members.w = uint32_to_int width ∧
      (ImportAndroidHardwareBufferPipeline.create fp16 opt width height type_to r
          properties_result).members.h = uint32_to_int height ∧
      (ImportAndroidHardwareBufferPipeline.create fp16 opt width height type_to r
          properties_result).members.outw =
        (if r < 5 then uint32_to_int width else uint32_to_int height) ∧
      (ImportAndroidHardwareBufferPipeline.create fp16 opt width height type_to r
          properties_result).members.outh =
        (if r < 5 then uint32_to_int height else uint32_to_int width)) ∧
    (ImportAndroidHardwareBufferPipeline.create ⟨true, true, true⟩ ⟨true, true, true⟩ 640 480 1 6
        0).members.outw = 480 ∧
    (ImportAndroidHardwareBufferPipeline.create ⟨true, true, true⟩ ⟨true, true, true⟩ 640 480 1 6
        0).members.outh = 640 := by
  refine ⟨?_, ?_, fun r => ⟨rfl, rfl, rfl, rfl⟩, by decide, by decide⟩
  · intro r hr
    have h5 : r < 5 := by
      simp only [List.mem_cons, List.mem_singleton, List.not_mem_nil, or_false] at hr
      omega
    unfold ImportAndroidHardwareBufferPipeline.create
    simp only [h5, if_true]
    exact ⟨trivial, trivial⟩
  · intro r hr
    have h5 : ¬ r < 5 := by
      simp only [List.mem_cons, List.mem_singleton, List.not_mem_nil, or_false] at hr
      omega
    unfold ImportAndroidHardwareBufferPipeline.create
    simp only [h5, if_false]
    exact ⟨trivial, trivial⟩

/-- C14. For every capability record, option set, buffer size, rotation and query outcome,
`ImportAndroidHardwareBufferPipeline::create` gives: target type `1` or `2` (RGB, BGR)
three channels with element packing `1`; type `3` (GRAY) one channel with packing `1`;
type `4` (packed RGBA) four channels with packing `4`; the channel count and the packing
are the same for any two capability records and option sets; and the element size is the
packing times `2` or times `4` bytes: `2` or `4` for types `1, 2, 3`, `8` or `16` for type
`4`. -/
theorem colorspace_output_layout (fp16 : GpuInfoFp16) (opt : NcnnOption) (width height : Nat)
    (rotate_from : Int) (properties_result : Int) :
    (∀ t ∈ ([1, 2] : List Int),
      (ImportAndroidHardwareBufferPipeline.create fp16 opt width height t rotate_from
          properties_result).members.outc = 3 ∧
      (ImportAndroidHardwareBufferPipeline.create fp16 opt width height t rotate_from
          properties_result).members.out_elempack = 1 ∧
      ((ImportAndroidHardwareBufferPipeline.create fp16 opt width height t rotate_from
          properties_result).members.out_elemsize = 2 ∨
        (ImportAndroidHardwareBufferPipeline.create fp16 opt width height t rotate_from
          properties_result).members.out_elemsize = 4)) ∧
    ((ImportAndroidHardwareBufferPipeline.create fp16 opt width height 3 rotate_from
          properties_result).members.outc = 1 ∧
      (ImportAndroidHardwareBufferPipeline.create fp16 opt width height 3 rotate_from
          properties_result).members.out_elempack = 1 ∧
      ((ImportAndroidHardwareBufferPipeline.create fp16 opt width height 3 rotate_from
          properties_result).members.out_elemsize = 2 ∨
        (ImportAndroidHardwareBufferPipeline.create fp16 opt width height 3 rotate_from
          properties_result).members.out_elemsize = 4)) ∧
    ((ImportAndroidHardwareBufferPipeline.create fp16 opt width height 4 rotate_from
          properties_result).members.outc = 4 ∧
      (ImportAndroidHardwareBufferPipeline.create fp16 opt width height 4 rotate_from
          properties_result).members.out_elempack = 4 ∧
      ((ImportAndroidHardwareBufferPipeline.create fp16 opt width height 4 rotate_from
          properties_result).members.out_elemsize = 8 ∨
        (ImportAndroidHardwareBufferPipeline.create fp16 opt width height 4 rotate_from
          properties_result).members.out_elemsize = 16)) ∧
    (∀ (t : Int) (fp16' : GpuInfoFp16) (opt' : NcnnOption),
      (ImportAndroidHardwareBufferPipeline.create fp16 opt width height t rotate_from
          properties_result).members.outc =
        (ImportAndroidHardwareBufferPipeline.create fp16' opt' width height t rotate_from
          properties_result).members.outc ∧
      (ImportAndroidHardwareBufferPipeline.create fp16 opt width height t rotate_from
          properties_result).members.out_elempack =
        (ImportAndroidHardwareBufferPipeline.create fp16' opt' width height t rotate_from
          properties_result).members.out_elempack) ∧
    (∀ t ∈ ([1, 2, 3, 4] : List Int),
      ((ImportAndroidHardwareBufferPipeline.create fp16 opt width height t rotate_from
          properties_result).members.out_elemsize : ℤ) =
        (ImportAndroidHardwareBufferPipeline.create fp16 opt width height t rotate_from
          properties_result).members.out_elempack * 2 ∨
      ((ImportAndroidHardwareBufferPipeline.create fp16 opt width height t rotate_from
          properties_result).members.out_elemsize : ℤ) =
        (ImportAndroidHardwareBufferPipeline.create fp16 opt width height t rotate_from
          properties_result).members.out_elempack * 4) := by
  obtain ⟨fp, fs, fa⟩ := fp16
  obtain ⟨up, us, ua⟩ := opt
  refine ⟨?_, ?_, ?_, fun t fp16' opt' => ⟨rfl, rfl⟩, ?_⟩
  · intro t ht
    simp only [List.mem_cons, List.mem_singleton, List.not_mem_nil, or_false] at ht
    rcases ht with rfl | rfl <;> cases fs <;> cases us <;>
      simp [ImportAndroidHardwareBufferPipeline.create]
  · cases fs <;> cases us <;> simp [ImportAndroidHardwareBufferPipeline.create]
  · cases fp <;> cases up <;> cases fs <;> cases us <;>
      simp [ImportAndroidHardwareBufferPipeline.create]
  · intro t ht
    simp only [List.mem_cons, List.mem_singleton, List.not_mem_nil, or_false] at ht
    rcases ht with rfl | rfl | rfl | rfl <;> cases fp <;> cases up <;> cases fs <;> cases us <;>
      simp [ImportAndroidHardwareBufferPipeline.create]

/-! ## The single-known-axis branches and completion -/

/-- The branch `else if (h > 0)`: taken when `h` is positive and `w` is not. -/
theorem set_optimal_only_h (info : GpuInfo) (p : Pipeline) (w h c : Int)
    (hz : 1 ≤ optimal_local_size_z info c) (hh : 0 < h) (hw : w ≤ 0)
    (hy : 1 ≤ halve_while_above h.toNat
      (min (info.max_workgroup_invocations / optimal_local_size_z info c)
        info.max_workgroup_size_y)) :
    ∃ p', p.set_optimal_local_size_xyz info w h c = some p' ∧
      p'.local_size_y =
        halve_while_above h.toNat
          (min (info.max_workgroup_invocations / optimal_local_size_z info c)
            info.max_workgroup_size_y) ∧
      p'.local_size_x =
        min (info.max_workgroup_invocations / optimal_local_size_z info c / p'.local_size_y)
          info.max_workgroup_size_x ∧
      p'.local_size_z = optimal_local_size_z info c := by
  unfold Pipeline.set_optimal_local_size_xyz
  simp only
  rw [if_neg (by omega), if_neg (by omega), if_pos hh, if_neg (by omega)]
  refine ⟨_, rfl, rfl, rfl, ?_⟩
  split_ifs <;> rfl

/-- The branch `else if (w > 0)`: taken when `w` is positive and `h` is not. -/
theorem set_optimal_only_w (info : GpuInfo) (p : Pipeline) (w h c : Int)
    (hz : 1 ≤ optimal_local_size_z info c) (hw : 0 < w) (hh : h ≤ 0)
    (hx : 1 ≤ halve_while_above w.toNat
      (min (info.max_workgroup_invocations / optimal_local_size_z info c)
        info.max_workgroup_size_x)) :
    ∃ p', p.set_optimal_local_size_xyz info w h c = some p' ∧
      p'.local_size_x =
        halve_while_above w.toNat
          (min (info.max_workgroup_invocations / optimal_local_size_z info c)
            info.max_workgroup_size_x) ∧
      p'.local_size_y =
        min (info.max_workgroup_invocations / optimal_local_size_z info c / p'.local_size_x)
          info.max_workgroup_size_y ∧
      p'.local_size_z = optimal_local_size_z info c := by
  unfold Pipeline.set_optimal_local_size_xyz
  simp only
  rw [if_neg (by omega), if_neg (by omega), if_neg (by omega), if_pos hw, if_neg (by omega)]
  refine ⟨_, rfl, rfl, rfl, ?_⟩
  split_ifs <;> rfl

/-- Bounds shared by the two single-axis branches: with a budget `B ≥ 1`, an extent
`e ≥ 1` and caps `ma, mb ≥ 1`, the halved size `la` and the other size
`lb = min (B / la) mb` are at least one, within their caps, and `la * lb ≤ B`. -/
theorem single_axis_bounds (B e ma mb : Nat) (hB : 1 ≤ B) (he : 1 ≤ e) (hma : 1 ≤ ma)
    (hmb : 1 ≤ mb) :
    1 ≤ halve_while_above e (min B ma) ∧ halve_while_above e (min B ma) ≤ e ∧
      halve_while_above e (min B ma) ≤ ma ∧
      1 ≤ min (B / halve_while_above e (min B ma)) mb ∧
      min (B / halve_while_above e (min B ma)) mb ≤ mb ∧
      halve_while_above e (min B ma) * min (B / halve_while_above e (min B ma)) mb ≤ B := by
  have h1 : 1 ≤ halve_while_above e (min B ma) := halve_while_above_pos _ _ he (by omega)
  have h2 := halve_while_above_le_bound e (min B ma)
  have h3 := halve_while_above_le e (min B ma)
  have h4 : 1 ≤ B / halve_while_above e (min B ma) :=
    (Nat.one_le_div_iff (by omega)).mpr (by omega)
  have h5 : halve_while_above e (min B ma) * (B / halve_while_above e (min B ma)) ≤ B :=
    Nat.mul_div_le B _
  refine ⟨h1, h2, by omega, by omega, by omega, ?_⟩
  exact le_trans (Nat.mul_le_mul_left _ (min_le_left _ _)) h5

/-- C15. With all device limits positive and a budget
`B = max_workgroup_invocations / lz ≥ 1`: when `h` is positive and `w` is not (in
particular when `w` is negative), the call completes with `ly` the first element of
`min(B, max_y), min(B, max_y) / 2, ...` that is at most `h` and `lx = min(B / ly, max_x)`;
when `w` is positive and `h` is not, the same holds with x and y exchanged. In both cases
the halved size is between `1` and `min(extent, cap)`, the other one between `1` and its
cap, and `lx * ly * lz ≤ max_workgroup_invocations`. -/
theorem single_known_axis (info : GpuInfo) (p : Pipeline) (w h c : Int)
    (hx : 1 ≤ info.max_workgroup_size_x) (hy : 1 ≤ info.max_workgroup_size_y)
    (hz : 1 ≤ info.max_workgroup_size_z)
    (hB : 1 ≤ info.max_workgroup_invocations / optimal_local_size_z info c) :
    (0 < h → w ≤ 0 →
      ∃ p', p.set_optimal_local_size_xyz info w h c = some p' ∧
        p'.local_size_z = optimal_local_size_z info c ∧
        (∃ k,
          p'.local_size_y =
            min (info.max_workgroup_invocations / optimal_local_size_z info c)
              info.max_workgroup_size_y / 2 ^ k ∧
          ((p'.local_size_y : ℕ) : ℤ) ≤ h ∧
          ∀ j, j < k →
            h < ((min (info.max_workgroup_invocations / optimal_local_size_z info c)
              info.max_workgroup_size_y / 2 ^ j : ℕ) : ℤ)) ∧
        p'.local_size_x =
          min (info.max_workgroup_invocations / optimal_local_size_z info c / p'.local_size_y)
            info.max_workgroup_size_x ∧
        1 ≤ p'.local_size_y ∧ ((p'.local_size_y : ℕ) : ℤ) ≤ h ∧
        p'.local_size_y ≤ info.max_workgroup_size_y ∧
        1 ≤ p'.local_size_x ∧ p'.local_size_x ≤ info.max_workgroup_size_x ∧
        p'.local_size_x * p'.local_size_y * p'.local_size_z ≤ info.max_workgroup_invocations) ∧
    (0 < w → h ≤ 0 →
      ∃ p', p.set_optimal_local_size_xyz info w h c = some p' ∧
        p'.local_size_z = optimal_local_size_z info c ∧
        (∃ k,
          p'.local_size_x =
            min (info.max_workgroup_invocations / optimal_local_size_z info c)
              info.max_workgroup_size_x / 2 ^ k ∧
          ((p'.local_size_x : ℕ) : ℤ) ≤ w ∧
          ∀ j, j < k →
            w < ((min (info.max_workgroup_invocations / optimal_local_size_z info c)
              info.max_workgroup_size_x / 2 ^ j : ℕ) : ℤ)) ∧
        p'.local_size_y =
          min (info.max_workgroup_invocations / optimal_local_size_z info c / p'.local_size_x)
            info.max_workgroup_size_y ∧
        1 ≤ p'.local_size_x ∧ ((p'.local_size_x : ℕ) : ℤ) ≤ w ∧
        p'.local_size_x ≤ info.max_workgroup_size_x ∧
        1 ≤ p'.local_size_y ∧ p'.local_size_y ≤ info.max_workgroup_size_y ∧
        p'.local_size_x * p'.local_size_y * p'.local_size_z ≤ info.max_workgroup_invocations) := by
  have hlz := optimal_local_size_z_pos info c hz
  have hinv : info.max_workgroup_invocations / optimal_local_size_z info c
      * optimal_local_size_z info c ≤ info.max_workgroup_invocations := Nat.div_mul_le_self _ _
  constructor
  · intro hh hw
    obtain ⟨b1, b2, b3, b4, b5, b6⟩ :=
      single_axis_bounds _ h.toNat info.max_workgroup_size_y info.max_workgroup_size_x hB
        (by omega) hy hx
    obtain ⟨p', e0, ey, ex, ez⟩ := set_optimal_only_h info p w h c hlz hh hw b1
    obtain ⟨k, hk, hlt⟩ := halveLoop_first h.toNat
      (min (info.max_workgroup_invocations / optimal_local_size_z info c)
        info.max_workgroup_size_y)
      (min (info.max_workgroup_invocations / optimal_local_size_z info c)
        info.max_workgroup_size_y)
    rw [← ey] at b1 b2 b3 b4 b5 b6
    rw [← ex] at b4 b5 b6
    refine ⟨p', e0, ez, ⟨k, by rw [ey]; exact hk, by omega, ?_⟩, ex, b1, by omega, b3, b4, b5, ?_⟩
    · intro j hj
      have := hlt j hj
      omega
    · rw [ez, Nat.mul_comm p'.local_size_x]
      exact le_trans (Nat.mul_le_mul_right _ b6) hinv
  · intro hw hh
    obtain ⟨b1, b2, b3, b4, b5, b6⟩ :=
      single_axis_bounds _ w.toNat info.max_workgroup_size_x info.max_workgroup_size_y hB
        (by omega) hx hy
    obtain ⟨p', e0, ex, ey, ez⟩ := set_optimal_only_w info p w h c hlz hw hh b1
    obtain ⟨k, hk, hlt⟩ := halveLoop_first w.toNat
      (min (info.max_workgroup_invocations / optimal_local_size_z info c)
        info.max_workgroup_size_x)
      (min (info.max_workgroup_invocations / optimal_local_size_z info c)
        info.max_workgroup_size_x)
    rw [← ex] at b1 b2 b3 b4 b5 b6
    rw [← ey] at b4 b5 b6
    refine ⟨p', e0, ez, ⟨k, by rw [ex]; exact hk, by omega, ?_⟩, ey, b1, by omega, b3, b4, b5, ?_⟩
    · intro j hj
      have := hlt j hj
      omega
    · rw [ez]
      exact le_trans (Nat.mul_le_mul_right _ b6) hinv

/-- C15 at concrete inputs: limits `1024` and `(1024, 1024, 64)`; the call `(-1, 7, 3)`
leaves `(128, 4, 2)` and its mirror `(7, -1, 3)` leaves `(4, 128, 2)`. -/
theorem single_known_axis_witness :
    (∃ p', Pipeline.new.set_optimal_local_size_xyz ⟨1024, 1024, 64, 1024, true, true⟩ (-1) 7 3
        = some p' ∧
      1 ≤ p'.local_size_y ∧ p'.local_size_y ≤ 7 ∧ 1 ≤ p'.local_size_x ∧
      p'.local_size_x * p'.local_size_y * p'.local_size_z ≤ 1024) ∧
    (Pipeline.new.set_optimal_local_size_xyz ⟨1024, 1024, 64, 1024, true, true⟩ (-1) 7 3).map
        Pipeline.local_size = some (128, 4, 2) ∧
    (Pipeline.new.set_optimal_local_size_xyz ⟨1024, 1024, 64, 1024, true, true⟩ 7 (-1) 3).map
        Pipeline.local_size = some (4, 128, 2) := by
  obtain ⟨p', h0, -, -, -, h1, h2, -, h3, -, h4⟩ :=
    (single_known_axis ⟨1024, 1024, 64, 1024, true, true⟩ Pipeline.new (-1) 7 3
      (by decide) (by decide) (by decide) (by decide!)).1 (by decide) (by decide)
  exact ⟨⟨p', h0, h1, by omega, h3, h4⟩, by decide!, by decide!⟩

/-- C17. For all integers `w, h, c` and device limits with `max_x ≥ 1`, `max_y ≥ 1`,
`max_z ≥ 1` and `max_workgroup_invocations ≥ max_z`, `set_optimal_local_size_xyz` runs to
completion (no division by zero): the z size is at least one and at most the invocation
limit when the budget `B = max_workgroup_invocations / lz` is formed, so `B ≥ 1`; the
halved `ly` is at least one when `B / ly` is formed in the branch `h > 0`, and the halved
`lx` is at least one when `B / lx` is formed in the branch `w > 0`; and every halving loop
`while (bound < v) v /= 2` leaves through its test after at most `v` iterations, with the
same result however many further iterations are allowed. -/
theorem runs_to_completion (info : GpuInfo) (p : Pipeline) (w h c : Int)
    (hx : 1 ≤ info.max_workgroup_size_x) (hy : 1 ≤ info.max_workgroup_size_y)
    (hz : 1 ≤ info.max_workgroup_size_z)
    (hi : info.max_workgroup_size_z ≤ info.max_workgroup_invocations) :
    (∃ p', p.set_optimal_local_size_xyz info w h c = some p') ∧
      1 ≤ optimal_local_size_z info c ∧
      optimal_local_size_z info c ≤ info.max_workgroup_invocations ∧
      1 ≤ info.max_workgroup_invocations / optimal_local_size_z info c ∧
      (0 < h →
        1 ≤ halve_while_above h.toNat
          (min (info.max_workgroup_invocations / optimal_local_size_z info c)
            info.max_workgroup_size_y)) ∧
      (0 < w →
        1 ≤ halve_while_above w.toNat
          (min (info.max_workgroup_invocations / optimal_local_size_z info c)
            info.max_workgroup_size_x)) ∧
      (∀ bound v : Nat,
        ¬ bound < halve_while_above bound v ∧
          ∀ fuel, v ≤ fuel → halveLoop bound fuel v = halve_while_above bound v) := by
  have hlz := optimal_local_size_z_pos info c hz
  have hle := optimal_local_size_z_le info c
  have hB : 1 ≤ info.max_workgroup_invocations / optimal_local_size_z info c :=
    (Nat.one_le_div_iff (by omega)).mpr (by omega)
  refine ⟨set_optimal_isSome info p w h c hlz (by omega) hx hy, hlz, by omega, hB, ?_, ?_, ?_⟩
  · intro hh
    exact halve_while_above_pos _ _ (by omega) (by omega)
  · intro hw
    exact halve_while_above_pos _ _ (by omega) (by omega)
  · intro bound v
    exact ⟨not_lt.mpr (halve_while_above_le_bound bound v), fun fuel hf =>
      halveLoop_fuel bound fuel v hf⟩

/-- C17 at concrete inputs: limits `64` invocations and `(128, 128, 64)`, call
`(5, -1, 100)`. -/
theorem runs_to_completion_witness :
    (∃ p', Pipeline.new.set_optimal_local_size_xyz ⟨128, 128, 64, 64, true, true⟩ 5 (-1) 100
        = some p') ∧
      (Pipeline.new.set_optimal_local_size_xyz ⟨128, 128, 64, 64, true, true⟩ 5 (-1) 100).map
        Pipeline.local_size = some (1, 1, 64) :=
  ⟨(runs_to_completion ⟨128, 128, 64, 64, true, true⟩ Pipeline.new 5 (-1) 100
      (by decide) (by decide) (by decide) (by decide)).1, by decide!⟩

/-! ## Monotonicity of the rounding -/

theorem roundHalfEven_mono (a b : ℚ) (hab : a ≤ b) : roundHalfEven a ≤ roundHalfEven b := by
  have hfl : ⌊a⌋ ≤ ⌊b⌋ := Int.floor_le_floor hab
  rcases hfl.lt_or_eq with hlt | heq
  · have h1 := roundHalfEven_le_floor_add_one a
    have h2 := floor_le_roundHalfEven b
    omega
  · unfold roundHalfEven
    rw [heq]
    have hq : (a - ⌊b⌋ : ℚ) ≤ b - ⌊b⌋ := by linarith
    rw [← heq] at hq ⊢
    rw [heq] at hq ⊢
    split_ifs <;> first | omega | (exfalso; linarith)

theorem roundTo_le_zpow (p : Nat) (hp : 1 ≤ p) (x : ℚ) (hx : 0 < x) :
    roundTo p x ≤ 2 ^ (ilog2 x + 1) := by
  obtain ⟨m, -, hm, hf⟩ := roundTo_pos_form p hp x hx
  rw [hf]
  have h1 : (2 : ℚ) ^ (ilog2 x + 1) = ((2 ^ p : ℕ) : ℚ) * 2 ^ (ilog2 x - ((p : ℤ) - 1)) := by
    push_cast
    rw [← zpow_natCast, ← zpow_add₀ (two_ne_zero)]
    congr 1
    ring
  rw [h1]
  exact mul_le_mul_of_nonneg_right (by exact_mod_cast hm) (by positivity)

/-- Rounding is monotone on positive numbers. -/
theorem roundTo_mono (p : Nat) (hp : 1 ≤ p) (x y : ℚ) (hx : 0 < x) (hxy : x ≤ y) :
    roundTo p x ≤ roundTo p y := by
  have hy : 0 < y := lt_of_lt_of_le hx hxy
  have hle : ilog2 x ≤ ilog2 y := le_ilog2 y hy _ (le_trans (ilog2_spec x hx).1 hxy)
  rcases hle.lt_or_eq with hlt | heq
  · calc roundTo p x ≤ 2 ^ (ilog2 x + 1) := roundTo_le_zpow p hp x hx
      _ ≤ 2 ^ ilog2 y := zpow_le_zpow_right₀ (by norm_num) (by omega)
      _ ≤ roundTo p y := roundTo_ge_zpow p hp y _ (ilog2_spec y hy).1
  · unfold roundTo
    rw [if_neg hx.ne', if_neg (not_lt.mpr hx.le), if_neg hy.ne', if_neg (not_lt.mpr hy.le), heq]
    have hE : (0 : ℚ) < 2 ^ (ilog2 y - ((p : ℤ) - 1)) := by positivity
    have hdiv : x / 2 ^ (ilog2 y - ((p : ℤ) - 1)) ≤ y / 2 ^ (ilog2 y - ((p : ℤ) - 1)) :=
      div_le_div_of_nonneg_right hxy hE.le
    have := roundHalfEven_mono _ _ hdiv
    exact mul_le_mul_of_nonneg_right (by exact_mod_cast this) hE.le

theorem int_to_float_mono (a b : Int) (ha : 0 < a) (hab : a ≤ b) :
    int_to_float a ≤ int_to_float b :=
  roundTo_mono 24 (by norm_num) _ _ (by exact_mod_cast ha) (by exact_mod_cast hab)

/-- The ratio `ps` of the longer to the shorter extent is a `float` that is at least one. -/
theorem one_le_aspect (a b : Int) (ha : 0 < a) (hab : a ≤ b) :
    1 ≤ float_div (int_to_float b) (int_to_float a) ∧
      IsFloat 24 (float_div (int_to_float b) (int_to_float a)) := by
  have h1 := one_le_int_to_float a ha
  have h2 := int_to_float_mono a b ha hab
  have hq : 1 ≤ int_to_float b / int_to_float a := by
    rw [le_div_iff₀ (by linarith)]; linarith
  constructor
  · have h : (2 : ℚ) ^ (0 : ℤ) ≤ int_to_float b / int_to_float a := by simpa using hq
    simpa [float_div] using roundTo_ge_zpow 24 (by norm_num) _ 0 h
  · exact isFloat_roundTo 24 (by norm_num) _ (by linarith)

/-! ## The product `local_size_xy * ps` of the aspect branch is at least one -/

/-- Rounding to `float` loses at most the fraction `2^-24` of a positive number. -/
theorem roundTo_ge_rel (q : ℚ) (hq : 0 < q) : q * (1 - 1 / 16777216) ≤ roundTo 24 q := by
  have herr := roundTo_error 24 q hq
  have hs := (ilog2_spec q hq).1
  have e : (2 : ℚ) ^ (ilog2 q - (((24 : ℕ) : ℤ) - 1)) = 2 ^ ilog2 q / 8388608 := by
    rw [zpow_sub₀ (two_ne_zero)]
    norm_num
  rw [e] at herr
  have := (abs_le.mp herr).1
  linarith

/-- The exact root is at most the computed one enlarged by the fraction `2^-24`. -/
theorem le_sqrtRound_rel (x : ℚ) (hx : 0 < x) :
    x ≤ (sqrtRound 24 x * (1 + 1 / 16777216)) ^ 2 := by
  have herr := (sqrtRound_error 24 (by norm_num) x hx).2
  have hL := (ilog2_spec x hx).1
  have hj : (2 : ℚ) ^ (2 * (ilog2 x / 2)) ≤ x :=
    le_trans (zpow_le_zpow_right₀ (by norm_num) (by omega)) hL
  have hs := sqrtRound_ge_zpow 24 (by norm_num) x (ilog2 x / 2) hj
  have e : (2 : ℚ) ^ (ilog2 x / 2 - (((24 : ℕ) : ℤ) - 1)) = 2 ^ (ilog2 x / 2) / 8388608 := by
    rw [zpow_sub₀ (two_ne_zero)]
    norm_num
  rw [e] at herr
  have hpos : (0 : ℚ) < 2 ^ (ilog2 x / 2) := by positivity
  have h1 : sqrtRound 24 x + 2 ^ (ilog2 x / 2) / 8388608 / 2 ≤ sqrtRound 24 x * (1 + 1 / 16777216) := by
    linarith
  have h0 : 0 ≤ sqrtRound 24 x + 2 ^ (ilog2 x / 2) / 8388608 / 2 := by linarith
  exact le_trans herr (pow_le_pow_left₀ h0 h1 2)

/-- A `float` between one and two is a multiple of `2^-23`. -/
theorem float_binade_one (ps : ℚ) (hf : IsFloat 24 ps) (h1 : 1 ≤ ps) (h2 : ps < 2) :
    ∃ n : ℤ, ps = (n : ℚ) / 8388608 := by
  have hpos : 0 < ps := by linarith
  have hlog : ilog2 ps = 0 := ilog2_unique ps hpos 0 (by simpa using h1) (by simpa using h2)
  have hr := hf.roundTo_eq (by norm_num : 1 ≤ 24)
  unfold roundTo at hr
  rw [if_neg hpos.ne', if_neg (not_lt.mpr hpos.le), hlog] at hr
  have e : (2 : ℚ) ^ ((0 : ℤ) - (((24 : ℕ) : ℤ) - 1)) = 1 / 8388608 := by
    norm_num [zpow_neg]
  rw [e] at hr
  refine ⟨roundHalfEven (ps / (1 / 8388608)), ?_⟩
  linarith

theorem aspect_product_at_one :
    1 ≤ float_sqrt (float_div (uint_to_float 1) 1) * 1 ∧
      1 ≤ float_sqrt (float_div (uint_to_float 1) (8388609 / 8388608)) * (8388609 / 8388608) := by
  constructor <;> decide!

/-- Lines 164-166 and 171-174: for a budget of at least one and a ratio `ps ≥ 1`, the
exact product of `local_size_xy = sqrt(max_local_size_xy / ps)` and `ps` is at least
one. -/
theorem one_le_aspect_product (B : Nat) (hB : 1 ≤ B) (ps : ℚ) (hf : IsFloat 24 ps)
    (hps : 1 ≤ ps) : 1 ≤ float_sqrt (float_div (uint_to_float B) ps) * ps := by
  have hb := one_le_uint_to_float B hB
  have hq : 0 < uint_to_float B / ps := div_pos (by linarith) (by linarith)
  have hx1 := roundTo_ge_rel _ hq
  have hxpos : 0 < float_div (uint_to_float B) ps := by
    unfold float_div
    have : 0 < uint_to_float B / ps * (1 - 1 / 16777216) := mul_pos hq (by norm_num)
    linarith
  have hx2 := le_sqrtRound_rel _ hxpos
  have hs0 : 0 ≤ float_sqrt (float_div (uint_to_float B) ps) := sqrtRound_nonneg 24 (by norm_num) _
  by_contra hcon
  have hlt : float_sqrt (float_div (uint_to_float B) ps) * ps < 1 := not_le.mp hcon
  have hsp0 : 0 ≤ float_sqrt (float_div (uint_to_float B) ps) * ps := mul_nonneg hs0 (by linarith)
  -- multiply both estimates by `ps ^ 2`
  have hps2 : 0 < ps * ps := mul_pos (by linarith) (by linarith)
  have k1 : uint_to_float B * ps * (1 - 1 / 16777216)
      ≤ float_div (uint_to_float B) ps * (ps * ps) := by
    have := mul_le_mul_of_nonneg_right hx1 hps2.le
    have e : uint_to_float B / ps * (1 - 1 / 16777216) * (ps * ps)
        = uint_to_float B * ps * (1 - 1 / 16777216) := by
      field_simp
      ring
    rw [e] at this
    exact this
  have k2 : float_div (uint_to_float B) ps * (ps * ps)
      ≤ (float_sqrt (float_div (uint_to_float B) ps) * ps) ^ 2 * (1 + 1 / 16777216) ^ 2 := by
    have := mul_le_mul_of_nonneg_right hx2 hps2.le
    have e : (sqrtRound 24 (float_div (uint_to_float B) ps) * (1 + 1 / 16777216)) ^ 2 * (ps * ps)
        = (float_sqrt (float_div (uint_to_float B) ps) * ps) ^ 2 * (1 + 1 / 16777216) ^ 2 := by
      unfold float_sqrt
      ring
    rw [e] at this
    exact this
  have k3 : (float_sqrt (float_div (uint_to_float B) ps) * ps) ^ 2 < 1 := by
    have := pow_lt_pow_left₀ hlt hsp0 (by norm_num : (2 : ℕ) ≠ 0)
    simpa using this
  have k4 : uint_to_float B * ps * (1 - 1 / 16777216) < (1 + 1 / 16777216) ^ 2 := by
    have h5 : (float_sqrt (float_div (uint_to_float B) ps) * ps) ^ 2 * (1 + 1 / 16777216) ^ 2
        < 1 * (1 + 1 / 16777216) ^ 2 :=
      mul_lt_mul_of_pos_right k3 (by norm_num)
    linarith
  rcases Nat.lt_or_ge B 2 with hB2 | hB2
  · have hB1 : B = 1 := by omega
    subst hB1
    have hb1 : uint_to_float 1 = 1 := by
      unfold uint_to_float
      simpa using roundTo_one
    rw [hb1] at k4
    have hps4 : ps < 1 + 4 / 16777216 := by
      by_contra hc
      have hc2 : 1 + 4 / 16777216 ≤ ps := not_lt.mp hc
      have : (1 + 4 / 16777216 : ℚ) * (1 - 1 / 16777216) ≤ 1 * ps * (1 - 1 / 16777216) := by
        rw [one_mul]
        exact mul_le_mul_of_nonneg_right hc2 (by norm_num)
      have hnum : ((1 + 1 / 16777216 : ℚ)) ^ 2 ≤ (1 + 4 / 16777216) * (1 - 1 / 16777216) := by
        norm_num
      linarith
    obtain ⟨n, hn⟩ := float_binade_one ps hf hps (by linarith)
    have hn1 : (8388608 : ℚ) ≤ (n : ℚ) := by
      rw [hn] at hps
      have := (le_div_iff₀ (by norm_num : (0 : ℚ) < 8388608)).mp hps
      linarith
    have hn2 : (n : ℚ) < 8388610 := by
      rw [hn] at hps4
      have := (div_lt_iff₀ (by norm_num : (0 : ℚ) < 8388608)).mp hps4
      linarith
    have hn1z : (8388608 : ℤ) ≤ n := by exact_mod_cast hn1
    have hn2z : n < (8388610 : ℤ) := by exact_mod_cast hn2
    have hcases : n = 8388608 ∨ n = 8388609 := by omega
    rcases hcases with h | h
    · have hps1 : ps = 1 := by rw [hn, h]; norm_num
      rw [hps1] at hlt
      exact absurd aspect_product_at_one.1 (not_le.mpr hlt)
    · have hps1 : ps = 8388609 / 8388608 := by rw [hn, h]; norm_num
      rw [hps1] at hlt
      exact absurd aspect_product_at_one.2 (not_le.mpr hlt)
  · have hb2 : 2 ≤ uint_to_float B := by
      have h : (2 : ℚ) ^ (1 : ℤ) ≤ (B : ℚ) := by
        rw [zpow_one]; exact_mod_cast hB2
      simpa [uint_to_float] using roundTo_ge_zpow 24 (by norm_num) (B : ℚ) 1 h
    have h6 : (2 : ℚ) * 1 * (1 - 1 / 16777216) ≤ uint_to_float B * ps * (1 - 1 / 16777216) := by
      apply mul_le_mul_of_nonneg_right _ (by norm_num)
      exact mul_le_mul hb2 hps (by norm_num) (by linarith)
    have hnum : ((1 + 1 / 16777216 : ℚ)) ^ 2 < 2 * 1 * (1 - 1 / 16777216) := by norm_num
    linarith

/-! ## Both extents known: the snapped sizes -/

/-- Both candidates of the aspect branch are at least one when the budget is. -/
theorem one_le_local_size_xy_aspect (B : Nat) (hB : 1 ≤ B) (w h : Int) (hw : 0 < w)
    (hh : 0 < h) :
    1 ≤ (local_size_xy_aspect B w h).1 ∧ 1 ≤ (local_size_xy_aspect B w h).2 := by
  have key : ∀ ps : ℚ, IsFloat 24 ps → 1 ≤ ps →
      1 ≤ float_to_uint (float_mul (float_sqrt (float_div (uint_to_float B) ps)) ps) := by
    intro ps hf hps
    have h1 := one_le_aspect_product B hB ps hf hps
    have h2 : (2 : ℚ) ^ (0 : ℤ) ≤ float_sqrt (float_div (uint_to_float B) ps) * ps := by
      simpa using h1
    have h3 := roundTo_ge_zpow 24 (by norm_num) _ 0 h2
    exact one_le_float_to_uint _ (by simpa [float_mul] using h3)
  unfold local_size_xy_aspect
  by_cases hgt : h > w
  · rw [if_pos hgt]
    obtain ⟨a1, a2⟩ := one_le_aspect w h hw (le_of_lt hgt)
    exact ⟨le_max_right _ _, key _ a2 a1⟩
  · rw [if_neg hgt]
    obtain ⟨a1, a2⟩ := one_le_aspect h w hh (not_lt.mp hgt)
    exact ⟨key _ a2 a1, le_max_right _ _⟩

/-- Halving a power of two down to a bound of at least one gives a power of two. -/
theorem halve_while_above_two_pow (b : Nat) (hb : 1 ≤ b) :
    ∀ a, ∃ i, halve_while_above b (2 ^ a) = 2 ^ i := by
  intro a
  induction a with
  | zero =>
    refine ⟨0, ?_⟩
    rw [halve_while_above_eq, if_neg (by simp; omega)]
  | succ a ih =>
    rw [halve_while_above_eq]
    split
    · have : 2 ^ (a + 1) / 2 = 2 ^ a := by rw [pow_succ]; omega
      rw [this]; exact ih
    · exact ⟨a + 1, rfl⟩

theorem not_two_pow_25 : ¬ ∃ i, 25 = 2 ^ i := by
  rintro ⟨i, hi⟩
  rcases Nat.lt_or_ge i 5 with h | h
  · interval_cases i <;> omega
  · have := Nat.pow_le_pow_right (by norm_num : 0 < 2) h
    omega

theorem not_two_pow_12 : ¬ ∃ i, 12 = 2 ^ i := by
  rintro ⟨i, hi⟩
  rcases Nat.lt_or_ge i 4 with h | h
  · interval_cases i <;> omega
  · have := Nat.pow_le_pow_right (by norm_num : 0 < 2) h
    omega

/-- C16, as stated, fails in two ways. With the positive limits `max_workgroup_size =
(100, 100, 64)`, `1024` invocations, the call `(200, 100, 1)` leaves `(25, 12, 1)`: the
sizes are snapped along `100, 50, 25, 12, ...` and neither is a power of two. With the
positive limits `(128, 128, 64)` and `32` invocations the call `(2, 1, 64)` has budget
`32 / 64 = 0` and leaves `local_size_x = 0`. -/
theorem both_known_counterexample :
    (∃ p', Pipeline.new.set_optimal_local_size_xyz ⟨100, 100, 64, 1024, true, true⟩ 200 100 1
        = some p' ∧
      p'.local_size = (25, 12, 1) ∧ (¬ ∃ i, p'.local_size_x = 2 ^ i) ∧
      ¬ ∃ i, p'.local_size_y = 2 ^ i) ∧
    (∃ p', Pipeline.new.set_optimal_local_size_xyz ⟨128, 128, 64, 32, true, true⟩ 2 1 64
        = some p' ∧
      p'.local_size = (0, 1, 64) ∧ ¬ ∃ i, p'.local_size_x = 2 ^ i) := by
  refine ⟨⟨{ Pipeline.new with local_size_x := 25, local_size_y := 12, local_size_z := 1 },
    by decide!, by decide!, not_two_pow_25, not_two_pow_12⟩,
    ⟨{ Pipeline.new with local_size_x := 0, local_size_y := 1, local_size_z := 64 },
    by decide!, by decide!, ?_⟩⟩
  rintro ⟨i, hi⟩
  have : 0 < 2 ^ i := Nat.pow_pos (by norm_num)
  have h0 : (0 : Nat) = 2 ^ i := hi
  omega

/-- C16, amended. For device limits with `max_workgroup_size[2] ≥ 1` and all `w > 0`,
`h > 0` the call completes; `lx` is at most `128` and at most `max_x`, `ly` at most `128`
and at most `max_y`; each is its preferred start `min(128, max)` halved some number of
times; and each is a power of two when that start is a power of two (as it is for a cap
of `128` or more) and the budget is not zero, that is `lz ≤ max_workgroup_invocations`. -/
theorem both_known_power_of_two (info : GpuInfo) (p : Pipeline) (w h c : Int) (hw : 0 < w)
    (hh : 0 < h) (hz : 1 ≤ info.max_workgroup_size_z) :
    ∃ p', p.set_optimal_local_size_xyz info w h c = some p' ∧
      p'.local_size_x ≤ 128 ∧ p'.local_size_x ≤ info.max_workgroup_size_x ∧
      p'.local_size_y ≤ 128 ∧ p'.local_size_y ≤ info.max_workgroup_size_y ∧
      (∃ k, p'.local_size_x = min 128 info.max_workgroup_size_x / 2 ^ k) ∧
      (∃ k, p'.local_size_y = min 128 info.max_workgroup_size_y / 2 ^ k) ∧
      (optimal_local_size_z info c ≤ info.max_workgroup_invocations →
        (∃ a, min 128 info.max_workgroup_size_x = 2 ^ a) → ∃ i, p'.local_size_x = 2 ^ i) ∧
      (optimal_local_size_z info c ≤ info.max_workgroup_invocations →
        (∃ a, min 128 info.max_workgroup_size_y = 2 ^ a) → ∃ i, p'.local_size_y = 2 ^ i) ∧
      (optimal_local_size_z info c ≤ info.max_workgroup_invocations →
        128 ≤ info.max_workgroup_size_x → 128 ≤ info.max_workgroup_size_y →
          (∃ i, p'.local_size_x = 2 ^ i) ∧ (∃ i, p'.local_size_y = 2 ^ i)) := by
  have hlz := optimal_local_size_z_pos info c hz
  obtain ⟨p', h0, ex, ey⟩ := set_optimal_both_positive info p w h c hlz hh hw
  have bx := halve_while_above_le
    (local_size_xy_aspect (info.max_workgroup_invocations / optimal_local_size_z info c) w h).1
    (min 128 info.max_workgroup_size_x)
  have bY := halve_while_above_le
    (local_size_xy_aspect (info.max_workgroup_invocations / optimal_local_size_z info c) w h).2
    (min 128 info.max_workgroup_size_y)
  obtain ⟨kx, hkx, -⟩ := halveLoop_first
    (local_size_xy_aspect (info.max_workgroup_invocations / optimal_local_size_z info c) w h).1
    (min 128 info.max_workgroup_size_x) (min 128 info.max_workgroup_size_x)
  obtain ⟨ky, hky, -⟩ := halveLoop_first
    (local_size_xy_aspect (info.max_workgroup_invocations / optimal_local_size_z info c) w h).2
    (min 128 info.max_workgroup_size_y) (min 128 info.max_workgroup_size_y)
  have px : optimal_local_size_z info c ≤ info.max_workgroup_invocations →
      (∃ a, min 128 info.max_workgroup_size_x = 2 ^ a) → ∃ i, p'.local_size_x = 2 ^ i := by
    intro hi ⟨a, ha⟩
    have hB : 1 ≤ info.max_workgroup_invocations / optimal_local_size_z info c :=
      (Nat.one_le_div_iff (by omega)).mpr hi
    rw [ex, ha]
    exact halve_while_above_two_pow _ (one_le_local_size_xy_aspect _ hB w h hw hh).1 a
  have py : optimal_local_size_z info c ≤ info.max_workgroup_invocations →
      (∃ a, min 128 info.max_workgroup_size_y = 2 ^ a) → ∃ i, p'.local_size_y = 2 ^ i := by
    intro hi ⟨a, ha⟩
    have hB : 1 ≤ info.max_workgroup_invocations / optimal_local_size_z info c :=
      (Nat.one_le_div_iff (by omega)).mpr hi
    rw [ey, ha]
    exact halve_while_above_two_pow _ (one_le_local_size_xy_aspect _ hB w h hw hh).2 a
  refine ⟨p', h0, by omega, by omega, by omega, by omega, ⟨kx, by rw [ex]; exact hkx⟩,
    ⟨ky, by rw [ey]; exact hky⟩, px, py, ?_⟩
  intro hi hx hy
  exact ⟨px hi ⟨7, by rw [min_eq_left hx]; rfl⟩, py hi ⟨7, by rw [min_eq_left hy]; rfl⟩⟩

/-- C16, amended, at the limits `1024` and `(1024, 1024, 64)` with the call
`(100, 50, 8)`, which leaves `(16, 8, 8)`. -/
theorem both_known_power_of_two_witness :
    (∃ p', Pipeline.new.set_optimal_local_size_xyz ⟨1024, 1024, 64, 1024, true, true⟩ 100 50 8
        = some p' ∧
      p'.local_size_x ≤ 128 ∧ p'.local_size_y ≤ 128 ∧
      (∃ i, p'.local_size_x = 2 ^ i) ∧ (∃ i, p'.local_size_y = 2 ^ i)) ∧
    (Pipeline.new.set_optimal_local_size_xyz ⟨1024, 1024, 64, 1024, true, true⟩ 100 50 8).map
        Pipeline.local_size = some (16, 8, 8) := by
  obtain ⟨p', h0, h1, -, h2, -, -, -, -, -, h3⟩ :=
    both_known_power_of_two ⟨1024, 1024, 64, 1024, true, true⟩ Pipeline.new 100 50 8
      (by decide) (by decide) (by decide)
  obtain ⟨h4, h5⟩ := h3 (by decide!) (by decide) (by decide)
  exact ⟨⟨p', h0, h1, h2, h4, h5⟩, by decide!⟩

end ncnn
